import Mathlib

/-!
OneWireRotaryEncoder: voltage-band classifier and quadrature state machine.

Shallow embedding of `src/OneWireRotaryEncoder.h` (full-step build, `HALF_STEP`
undefined).  Machine integers are natural numbers with the reductions of the
C types written out: `uint16_t` values are taken modulo `65536`, `uint8_t`
values modulo `256`.  An array read outside the bounds of `StateTable` is
undefined in C and is `none` here.
-/

namespace OneWire

/-! ## Constants (lines 13-38) -/

/-- Value returned by `process`: no complete step yet. -/
def DIR_NONE : Nat := 0x0
/-- Value returned by `process`: clockwise step. -/
def DIR_CW : Nat := 0x10
/-- Value returned by `process`: anti-clockwise step. -/
def DIR_CCW : Nat := 0x20

def R_START : Nat := 0x0
def R_CW_FINAL : Nat := 0x1
def R_CW_BEGIN : Nat := 0x2
def R_CW_NEXT : Nat := 0x3
def R_CCW_BEGIN : Nat := 0x4
def R_CCW_FINAL : Nat := 0x5
def R_CCW_NEXT : Nat := 0x6

/-! ## Data members (lines 44-102) -/

/-- The anonymous struct of lines 44-54: seven `uint16_t` expected readings. -/
structure Expected where
  A : Nat
  B : Nat
  AB : Nat
  Button : Nat
  ButtonA : Nat
  ButtonB : Nat
  ButtonAB : Nat
  deriving DecidableEq, Repr

/-- Default member initialisers of lines 46-53: every expected reading is 0. -/
def Expected.zero : Expected :=
  { A := 0, B := 0, AB := 0, Button := 0, ButtonA := 0, ButtonB := 0, ButtonAB := 0 }

/-- The mutable and immutable members of one encoder instance. -/
structure OneWireRotaryEncoder where
  ExpectedValues : Expected
  ReadTolerance : Nat
  State : Nat
  ButtonPressed : Bool
  deriving DecidableEq, Repr

/-- The full-step table of lines 83-98; columns are the encoder outputs
00, 01, 10, 11 from left to right. -/
def StateTable : List (List Nat) :=
  [ -- R_START
    [R_START,     R_CW_BEGIN,  R_CCW_BEGIN, R_START],
    -- R_CW_FINAL
    [R_CW_NEXT,   R_START,     R_CW_FINAL,  R_START ||| DIR_CW],
    -- R_CW_BEGIN
    [R_CW_NEXT,   R_CW_BEGIN,  R_START,     R_START],
    -- R_CW_NEXT
    [R_CW_NEXT,   R_CW_BEGIN,  R_CW_FINAL,  R_START],
    -- R_CCW_BEGIN
    [R_CCW_NEXT,  R_START,     R_CCW_BEGIN, R_START],
    -- R_CCW_FINAL
    [R_CCW_NEXT,  R_CCW_FINAL, R_START,     R_START ||| DIR_CCW],
    -- R_CCW_NEXT
    [R_CCW_NEXT,  R_CCW_FINAL, R_CCW_BEGIN, R_START] ]

/-- The read `StateTable[row][col]`; outside the 7x4 array there is no value. -/
def tableAt (row col : Nat) : Option Nat :=
  match StateTable.get? row with
  | none => none
  | some r => r.get? col

/-- Lines 104-105: `Value >= Min && Value <= Max` on `uint16_t` arguments. -/
def valueIsBetween (Value Min Max : Nat) : Bool :=
  decide (Value ≥ Min) && decide (Value ≤ Max)

/-- Lines 110-111. -/
def buttonPressed (e : OneWireRotaryEncoder) : Bool := e.ButtonPressed

/-! ## Constructor (lines 114-135)

The seven expected readings are computed in binary32 floating point and then
converted to `uint16_t`.  That arithmetic is not modelled: the constructor takes
the converted result of the expression
`((float) R2 / ((float) R2 + combined)) * 1023 - ReadTolerance`
as a parameter `divider R2 closed ReadTolerance`, where `closed` lists the
resistors of the closed switches in the order the source adds their
reciprocals (a single resistor stands for itself). -/

/-- Constructor of lines 114-135, over the floating-point parameter. -/
def construct (divider : Nat → List Nat → Nat → Nat)
    (R2 REncoderA REncoderB REncoderButton ReadTolerance : Nat) : OneWireRotaryEncoder :=
  let tol := ReadTolerance % 256
  let base : Expected :=
    { Expected.zero with
      A := divider R2 [REncoderA] tol % 65536
      B := divider R2 [REncoderB] tol % 65536
      AB := divider R2 [REncoderA, REncoderB] tol % 65536 }
  let ev : Expected :=
    if REncoderButton ≠ 0 then
      { base with
        Button := divider R2 [REncoderButton] tol % 65536
        ButtonA := divider R2 [REncoderButton, REncoderA] tol % 65536
        ButtonB := divider R2 [REncoderButton, REncoderB] tol % 65536
        ButtonAB := divider R2 [REncoderButton, REncoderA, REncoderB] tol % 65536 }
    else base
  { ExpectedValues := ev
    ReadTolerance := (tol * 2) % 256
    State := R_START
    ButtonPressed := false }

/-! ## `process` (lines 137-168) -/

/-- The band test `valueIsBetween(Reading, V, V + ReadTolerance)`; the sum is
converted to the `uint16_t` parameter `Max`. -/
def inBand (e : OneWireRotaryEncoder) (Reading V : Nat) : Bool :=
  valueIsBetween Reading V ((V + e.ReadTolerance) % 65536)

/-- Line 142. -/
def ButtonAState (e : OneWireRotaryEncoder) (Reading : Nat) : Bool :=
  inBand e Reading e.ExpectedValues.ButtonA
/-- Line 143. -/
def ButtonBState (e : OneWireRotaryEncoder) (Reading : Nat) : Bool :=
  inBand e Reading e.ExpectedValues.ButtonB
/-- Line 144. -/
def ButtonABState (e : OneWireRotaryEncoder) (Reading : Nat) : Bool :=
  inBand e Reading e.ExpectedValues.ButtonAB
/-- Line 146. -/
def PinABState (e : OneWireRotaryEncoder) (Reading : Nat) : Bool :=
  inBand e Reading e.ExpectedValues.AB
/-- Line 147. -/
def PinAState (e : OneWireRotaryEncoder) (Reading : Nat) : Bool :=
  PinABState e Reading || ButtonABState e Reading || ButtonAState e Reading ||
    inBand e Reading e.ExpectedValues.A
/-- Line 148. -/
def PinBState (e : OneWireRotaryEncoder) (Reading : Nat) : Bool :=
  PinABState e Reading || ButtonABState e Reading || ButtonBState e Reading ||
    inBand e Reading e.ExpectedValues.B
/-- Right-hand side of line 150, the value assigned to `ButtonPressed`. -/
def ButtonLevel (e : OneWireRotaryEncoder) (Reading : Nat) : Bool :=
  ButtonAState e Reading || ButtonBState e Reading || ButtonABState e Reading ||
    inBand e Reading e.ExpectedValues.Button

/-- The column index `(PinAState << 1) | PinBState` of line 160. -/
def phaseCode (a b : Bool) : Nat := (a.toNat <<< 1) ||| b.toNat

/-- Line 160 on its own: the new state byte for the given pin states. -/
def advance (State : Nat) (a b : Bool) : Option Nat :=
  tableAt (State &&& 0xf) (phaseCode a b)

/-- One call of `process()`, with the sample that `analogRead(INPUT_PIN)`
returns as an argument.  The result is the updated instance and the returned
byte `State & 0x30`. -/
def process (e : OneWireRotaryEncoder) (analogRead : Nat) :
    Option (OneWireRotaryEncoder × Nat) :=
  let Reading := analogRead % 65536
  (advance e.State (PinAState e Reading) (PinBState e Reading)).map fun st =>
    ({ e with State := st, ButtonPressed := ButtonLevel e Reading }, st &&& 0x30)

/-- Successive calls of `process()`, one per sample, collecting the returned
bytes in order. -/
def polls : OneWireRotaryEncoder → List Nat → Option (OneWireRotaryEncoder × List Nat)
  | e, [] => some (e, [])
  | e, s :: rest =>
    (process e s).bind fun r1 =>
      (polls r1.1 rest).map fun r2 => (r2.1, r1.2 :: r2.2)

/-- Line 160 iterated over given pin states: the final state byte and the
returned bytes. -/
def advances : Nat → List (Bool × Bool) → Option (Nat × List Nat)
  | st, [] => some (st, [])
  | st, p :: rest =>
    (advance st p.1 p.2).bind fun st1 =>
      (advances st1 rest).map fun r => (r.1, (st1 &&& 0x30) :: r.2)

/-- A calibration used in the examples: R2 = 10000, A = 10000, B = 20000,
button 5000, tolerance 25 (expected readings rounded down by hand). -/
def sampleEncoder : OneWireRotaryEncoder :=
  { ExpectedValues :=
      { A := 486, B := 316, AB := 588, Button := 657, ButtonA := 742, ButtonB := 705,
        ButtonAB := 770 }
    ReadTolerance := 50
    State := R_START
    ButtonPressed := false }

/-! ## Reference classifier, following the specification's wording (sections 3 and 4.1) -/

/-- The acceptance window `[V, V + width]` of an expected value `V`, inclusive
at both ends, over the integers without wrap-around. -/
def Spec.inWindow (V width s : Nat) : Bool := decide (V ≤ s ∧ s ≤ V + width)

/-- Reference `phaseA`: the sample lies in the A, A+B, Button+A or Button+A+B band. -/
def Spec.phaseA (ev : Expected) (width s : Nat) : Bool :=
  Spec.inWindow ev.A width s || Spec.inWindow ev.AB width s ||
    Spec.inWindow ev.ButtonA width s || Spec.inWindow ev.ButtonAB width s

/-- Reference `phaseB`: the sample lies in the B, A+B, Button+B or Button+A+B band. -/
def Spec.phaseB (ev : Expected) (width s : Nat) : Bool :=
  Spec.inWindow ev.B width s || Spec.inWindow ev.AB width s ||
    Spec.inWindow ev.ButtonB width s || Spec.inWindow ev.ButtonAB width s

/-- Reference `buttonPressed`: the sample lies in the Button, Button+A, Button+B or
Button+A+B band. -/
def Spec.buttonPressed (ev : Expected) (width s : Nat) : Bool :=
  Spec.inWindow ev.Button width s || Spec.inWindow ev.ButtonA width s ||
    Spec.inWindow ev.ButtonB width s || Spec.inWindow ev.ButtonAB width s

/-- The sample lies in none of the seven bands. -/
def Spec.inNoBand (ev : Expected) (width s : Nat) : Prop :=
  Spec.inWindow ev.A width s = false ∧ Spec.inWindow ev.B width s = false ∧
  Spec.inWindow ev.AB width s = false ∧ Spec.inWindow ev.Button width s = false ∧
  Spec.inWindow ev.ButtonA width s = false ∧ Spec.inWindow ev.ButtonB width s = false ∧
  Spec.inWindow ev.ButtonAB width s = false

/-- The ideal reading of a combination of closed switches with resistors
`closed`: `R2 / (R2 + 1 / sum (1 / R_i)) * 1023`, as an exact rational. -/
def Spec.ideal (R2 : ℚ) (closed : List ℚ) : ℚ :=
  R2 / (R2 + 1 / (closed.map fun r => 1 / r).sum) * 1023

/-! ## Basic facts about the table and the poll loop -/

/-- The state bytes the machine can hold after any number of polls from
`R_START`: a bare state id, or `R_START` with one direction code. -/
def Reachable (st : Nat) : Prop := st ≤ 6 ∨ st = 0x10 ∨ st = 0x20

/-- The pin states `process` derives from a sample. -/
def pins (e : OneWireRotaryEncoder) (analogRead : Nat) : Bool × Bool :=
  (PinAState e (analogRead % 65536), PinBState e (analogRead % 65536))

/-- The state bytes the machine holds during a run of polls: the byte before
the first poll, then the byte after each poll, in order. -/
def history : OneWireRotaryEncoder → List Nat → Option (List Nat)
  | e, [] => some [e.State]
  | e, s :: rest => (process e s).bind fun r => (history r.1 rest).map fun H => e.State :: H

/-- Line 160 iterated over given pin states: the state byte before the first
step, then the byte after each step. -/
def visits : Nat → List (Bool × Bool) → Option (List Nat)
  | st, [] => some [st]
  | st, p :: rest => (advance st p.1 p.2).bind fun st1 => (visits st1 rest).map fun H => st :: H

/-- One state byte added to the ids passed through since `R_START`: a byte
with id `R_START` empties the list, any other byte appends its id. -/
def segStep (acc : List Nat) (x : Nat) : List Nat :=
  if x &&& 0xf = R_START then [] else acc ++ [x &&& 0xf]

/-- The state ids passed through since the machine last was in `R_START`: the
ids of the bytes of a history that follow its last byte with id `R_START`. -/
def sinceStart (H : List Nat) : List Nat :=
  H.foldl segStep []

/-- What the current state records of the ids passed through since `R_START`:
a state of a sequence is preceded, in order, by the earlier steps of that
sequence. -/
def Progress (st : Nat) (seg : List Nat) : Prop :=
  (st = R_CW_BEGIN → List.Sublist [R_CW_BEGIN] seg) ∧
  (st = R_CW_NEXT → List.Sublist [R_CW_BEGIN, R_CW_NEXT] seg) ∧
  (st = R_CW_FINAL → List.Sublist [R_CW_BEGIN, R_CW_NEXT, R_CW_FINAL] seg) ∧
  (st = R_CCW_BEGIN → List.Sublist [R_CCW_BEGIN] seg) ∧
  (st = R_CCW_NEXT → List.Sublist [R_CCW_BEGIN, R_CCW_NEXT] seg) ∧
  (st = R_CCW_FINAL → List.Sublist [R_CCW_BEGIN, R_CCW_NEXT, R_CCW_FINAL] seg)

/-! ## Vocabulary of the claims about single transitions -/

/-- The six mid-sequence states. -/
def MidState (st : Nat) : Prop :=
  st = R_CW_BEGIN ∨ st = R_CW_NEXT ∨ st = R_CW_FINAL ∨
  st = R_CCW_BEGIN ∨ st = R_CCW_NEXT ∨ st = R_CCW_FINAL

/-- The next step of a mid-sequence state in its sequence, as a state byte:
BEGIN, NEXT, FINAL, then `R_START` with the direction code. -/
def nextStep (st : Nat) : Nat :=
  if st = R_CW_BEGIN then R_CW_NEXT
  else if st = R_CW_NEXT then R_CW_FINAL
  else if st = R_CW_FINAL then R_START ||| DIR_CW
  else if st = R_CCW_BEGIN then R_CCW_NEXT
  else if st = R_CCW_NEXT then R_CCW_FINAL
  else if st = R_CCW_FINAL then R_START ||| DIR_CCW
  else st

/-- The previous step of a mid-sequence state in its sequence. -/
def prevStep (st : Nat) : Nat :=
  if st = R_CW_NEXT then R_CW_BEGIN
  else if st = R_CW_FINAL then R_CW_NEXT
  else if st = R_CCW_NEXT then R_CCW_BEGIN
  else if st = R_CCW_FINAL then R_CCW_NEXT
  else R_START

/-- The states the machine can be in while only the two pin states `c1` and
`c2` have been read since `R_START`: a state past BEGIN needs both 00 and the
code of its BEGIN step, a FINAL state or an event would need a third code. -/
def TwoCodeState (c1 c2 : Bool × Bool) (st : Nat) : Prop :=
  st = R_START ∨
  (st = R_CW_BEGIN ∧ ((false, true) = c1 ∨ (false, true) = c2)) ∨
  (st = R_CW_NEXT ∧ ((false, true) = c1 ∨ (false, true) = c2) ∧
    ((false, false) = c1 ∨ (false, false) = c2)) ∨
  (st = R_CCW_BEGIN ∧ ((true, false) = c1 ∨ (true, false) = c2)) ∨
  (st = R_CCW_NEXT ∧ ((true, false) = c1 ∨ (true, false) = c2) ∧
    ((false, false) = c1 ∨ (false, false) = c2))

/-! ## Half-step build (`HALF_STEP` defined): lines 23-29 and 65-80

`process()` is the same code over the other table; `R_START` and the direction
codes are shared. -/

namespace HalfStep

def R_CCW_BEGIN : Nat := 0x1
def R_CW_BEGIN : Nat := 0x2
def R_START_M : Nat := 0x3
def R_CW_BEGIN_M : Nat := 0x4
def R_CCW_BEGIN_M : Nat := 0x5

/-- The half-step table of lines 67-80; columns are the encoder outputs
00, 01, 10, 11 from left to right. -/
def StateTable : List (List Nat) :=
  [ -- R_START (00)
    [R_START_M,             R_CW_BEGIN,    R_CCW_BEGIN,  R_START],
    -- R_CCW_BEGIN
    [R_START_M ||| DIR_CCW, R_START,       R_CCW_BEGIN,  R_START],
    -- R_CW_BEGIN
    [R_START_M ||| DIR_CW,  R_CW_BEGIN,    R_START,      R_START],
    -- R_START_M (11)
    [R_START_M,             R_CCW_BEGIN_M, R_CW_BEGIN_M, R_START],
    -- R_CW_BEGIN_M
    [R_START_M,             R_START_M,     R_CW_BEGIN_M, R_START ||| DIR_CW],
    -- R_CCW_BEGIN_M
    [R_START_M,             R_CCW_BEGIN_M, R_START_M,    R_START ||| DIR_CCW] ]

/-- The read `StateTable[row][col]`; outside the 6x4 array there is no value. -/
def tableAt (row col : Nat) : Option Nat :=
  match HalfStep.StateTable.get? row with
  | none => none
  | some r => r.get? col

/-- Line 160 on its own, over the half-step table. -/
def advance (State : Nat) (a b : Bool) : Option Nat :=
  HalfStep.tableAt (State &&& 0xf) (phaseCode a b)

/-- One call of `process()` in the half-step build. -/
def process (e : OneWireRotaryEncoder) (analogRead : Nat) :
    Option (OneWireRotaryEncoder × Nat) :=
  let Reading := analogRead % 65536
  (HalfStep.advance e.State (PinAState e Reading) (PinBState e Reading)).map fun st =>
    ({ e with State := st, ButtonPressed := ButtonLevel e Reading }, st &&& 0x30)

/-- Successive calls of `process()` in the half-step build. -/
def polls : OneWireRotaryEncoder → List Nat → Option (OneWireRotaryEncoder × List Nat)
  | e, [] => some (e, [])
  | e, s :: rest =>
    (HalfStep.process e s).bind fun r1 =>
      (HalfStep.polls r1.1 rest).map fun r2 => (r2.1, r1.2 :: r2.2)

/-- Line 160 iterated over given pin states, over the half-step table. -/
def advances : Nat → List (Bool × Bool) → Option (Nat × List Nat)
  | st, [] => some (st, [])
  | st, p :: rest =>
    (HalfStep.advance st p.1 p.2).bind fun st1 =>
      (HalfStep.advances st1 rest).map fun r => (r.1, (st1 &&& 0x30) :: r.2)

/-- The state bytes of the half-step machine after any number of polls from
`R_START`: a bare state id, or `R_START_M` or `R_START` with a direction code. -/
def Reachable (st : Nat) : Prop :=
  st ≤ 5 ∨ st = 0x13 ∨ st = 0x23 ∨ st = 0x10 ∨ st = 0x20

end HalfStep

/-! ## Vocabulary of the mirror symmetry -/

/-- The two phases exchanged. -/
def swapPins (p : Bool × Bool) : Bool × Bool := (p.2, p.1)

/-- The events with `DIR_CW` and `DIR_CCW` exchanged; `DIR_NONE` stays. -/
def mirrorEvent (r : Nat) : Nat :=
  if r = DIR_CW then DIR_CCW else if r = DIR_CCW then DIR_CW else r

/-- The state ids with each clockwise state exchanged with its anti-clockwise
counterpart; `R_START` stays. -/
def mirrorId (id : Nat) : Nat :=
  if id = R_CW_BEGIN then R_CCW_BEGIN
  else if id = R_CCW_BEGIN then R_CW_BEGIN
  else if id = R_CW_NEXT then R_CCW_NEXT
  else if id = R_CCW_NEXT then R_CW_NEXT
  else if id = R_CW_FINAL then R_CCW_FINAL
  else if id = R_CCW_FINAL then R_CW_FINAL
  else id

/-- The mirror image of a state byte: state id and direction code mirrored. -/
def mirrorState (st : Nat) : Nat := mirrorId (st &&& 0xf) ||| mirrorEvent (st &&& 0x30)

/-! ## Vocabulary of the rotation count -/

/-- The four moves along the cycle 11 -> 01 -> 00 -> 10 -> 11. -/
def cycleMoves : List ((Bool × Bool) × (Bool × Bool)) :=
  [((true, true), (false, true)), ((false, true), (false, false)),
   ((false, false), (true, false)), ((true, false), (true, true))]

/-- The quarter step of one move: +1 along the cycle, -1 along the reverse
cycle, 0 otherwise. -/
def quarterMove (c d : Bool × Bool) : Int :=
  if (c, d) ∈ cycleMoves then 1 else if (d, c) ∈ cycleMoves then -1 else 0

/-- The quarter-step position reached by the pin states `cs` read after the
pin state `c`. -/
def positionFrom : Bool × Bool → List (Bool × Bool) → Int
  | _, [] => 0
  | c, d :: rest => quarterMove c d + positionFrom d rest

/-- The quarter-step position after a sequence of pin states, 0 at the first. -/
def position : List (Bool × Bool) → Int
  | [] => 0
  | c :: rest => positionFrom c rest

/-- Number of `DIR_CW` events minus number of `DIR_CCW` events among returned
bytes. -/
def netEvents (rs : List Nat) : Int :=
  (rs.count DIR_CW : Int) - (rs.count DIR_CCW : Int)

/-- Consecutive pin states are equal or differ in exactly one bit. -/
def OneBitApart (c d : Bool × Bool) : Prop := c.1 = d.1 ∨ c.2 = d.2

/-- The quarter steps a state stands away from the rest position. -/
def offset (st : Nat) : Int :=
  if st = R_CW_BEGIN then 1
  else if st = R_CW_NEXT then 2
  else if st = R_CW_FINAL then 3
  else if st = R_CCW_BEGIN then -1
  else if st = R_CCW_NEXT then -2
  else if st = R_CCW_FINAL then -3
  else 0

/-- The state byte `st` is the one the machine holds at pin state `c` on
bounce-free input. -/
def Aligned (st : Nat) (c : Bool × Bool) : Prop :=
  ((st = R_START ∨ st = R_START ||| DIR_CW ∨ st = R_START ||| DIR_CCW) ∧ c = (true, true)) ∨
  (st = R_CW_BEGIN ∧ c = (false, true)) ∨
  (st = R_CW_NEXT ∧ c = (false, false)) ∨
  (st = R_CW_FINAL ∧ c = (true, false)) ∨
  (st = R_CCW_BEGIN ∧ c = (true, false)) ∨
  (st = R_CCW_NEXT ∧ c = (false, false)) ∨
  (st = R_CCW_FINAL ∧ c = (false, true))

theorem advance_reachable (st : Nat) (a b : Bool) (h : Reachable st) :
    ∃ st1, advance st a b = some st1 ∧ Reachable st1 := by
  have hst : st = 0 ∨ st = 1 ∨ st = 2 ∨ st = 3 ∨ st = 4 ∨ st = 5 ∨ st = 6 ∨
      st = 0x10 ∨ st = 0x20 := by
    unfold Reachable at h; omega
  rcases hst with h | h | h | h | h | h | h | h | h <;> subst h <;>
    cases a <;> cases b <;> exact ⟨_, rfl, by unfold Reachable; decide⟩

theorem pins_congr (e e1 : OneWireRotaryEncoder) (s : Nat)
    (hv : e1.ExpectedValues = e.ExpectedValues) (ht : e1.ReadTolerance = e.ReadTolerance) :
    pins e1 s = pins e s := by
  simp [pins, PinAState, PinBState, PinABState, ButtonABState, ButtonAState, ButtonBState,
    inBand, hv, ht]

theorem process_some (e : OneWireRotaryEncoder) (s st : Nat)
    (h : advance e.State (pins e s).1 (pins e s).2 = some st) :
    ∃ e1, process e s = some (e1, st &&& 0x30) ∧ e1.State = st ∧
      e1.ExpectedValues = e.ExpectedValues ∧ e1.ReadTolerance = e.ReadTolerance ∧
      e1.ButtonPressed = ButtonLevel e (s % 65536) := by
  simp only [pins] at h
  refine ⟨{ e with State := st, ButtonPressed := ButtonLevel e (s % 65536) }, ?_,
    rfl, rfl, rfl, rfl⟩
  simp [process, h]

theorem process_none (e : OneWireRotaryEncoder) (s : Nat)
    (h : advance e.State (pins e s).1 (pins e s).2 = none) : process e s = none := by
  simp only [pins] at h
  simp [process, h]

/-- The poll loop only sees the samples through their pin states: its state
bytes and returned bytes are those of the table iterated over the pin states. -/
theorem polls_eq_advances (e : OneWireRotaryEncoder) (ss : List Nat) :
    (polls e ss).map (fun r => (r.1.State, r.2)) = advances e.State (ss.map (pins e)) := by
  induction ss generalizing e with
  | nil => simp [polls, advances]
  | cons s rest ih =>
    cases hadv : advance e.State (pins e s).1 (pins e s).2 with
    | none => simp [polls, advances, process_none e s hadv, hadv]
    | some st =>
      obtain ⟨e1, hp, hst, hv, ht, _⟩ := process_some e s st hadv
      have ih1 := ih e1
      have hpins : List.map (pins e1) rest = List.map (pins e) rest := by
        apply List.map_congr_left
        intro x _
        exact pins_congr e e1 x hv ht
      rw [hpins, hst] at ih1
      simp only [polls, hp, List.map_cons, advances, hadv, Option.some_bind]
      rw [← ih1]
      cases polls e1 rest with
      | none => rfl
      | some r => rfl

theorem advances_append (st : Nat) (l1 l2 : List (Bool × Bool)) :
    advances st (l1 ++ l2) =
      (advances st l1).bind fun r1 =>
        (advances r1.1 l2).map fun r2 => (r2.1, r1.2 ++ r2.2) := by
  induction l1 generalizing st with
  | nil => simp [advances]
  | cons x rest ih =>
    rw [List.cons_append]
    simp only [advances]
    cases advance st x.1 x.2 with
    | none => rfl
    | some st1 =>
      simp only [Option.some_bind]
      rw [ih]
      cases advances st1 rest with
      | none => rfl
      | some r1 =>
        simp only [Option.some_bind, Option.map_some', Option.map_map]
        rfl

/-- Holding a pin state that keeps the machine in `st` returns `DIR_NONE` on
every poll. -/
theorem advances_hold (st : Nat) (a b : Bool) (n : Nat)
    (hloop : advance st a b = some st) (h0 : st &&& 0x30 = 0) :
    advances st (List.replicate n (a, b)) = some (st, List.replicate n DIR_NONE) := by
  induction n with
  | zero => rfl
  | succ n ih => simp [List.replicate_succ, advances, hloop, ih, h0, DIR_NONE]

/-- Entering `st1` on a pin state and holding it there: no event on any poll. -/
theorem advances_enter (st st1 : Nat) (a b : Bool) (n : Nat)
    (hin : advance st a b = some st1) (hloop : advance st1 a b = some st1)
    (h0 : st1 &&& 0x30 = 0) :
    advances st (List.replicate (n + 1) (a, b)) =
      some (st1, List.replicate (n + 1) DIR_NONE) := by
  simp [List.replicate_succ, advances, hin, advances_hold st1 a b n hloop h0, h0, DIR_NONE]

/-- A block of equal pin states that enters `st1` and holds it, followed by
more polls: the block returns `DIR_NONE` throughout and the rest runs from `st1`. -/
theorem advances_block (st st1 : Nat) (a b : Bool) (n : Nat) (l : List (Bool × Bool))
    (hin : advance st a b = some st1) (hloop : advance st1 a b = some st1)
    (h0 : st1 &&& 0x30 = 0) :
    advances st (List.replicate (n + 1) (a, b) ++ l) =
      (advances st1 l).map fun r => (r.1, List.replicate (n + 1) DIR_NONE ++ r.2) := by
  rw [advances_append, advances_enter st st1 a b n hin hloop h0]
  rfl

/-! ## C1-C3: the phase sequences of the specification, run from `R_START` -/

/-- C1. In the full-step table, from `R_START`, every sequence of polls whose
phase codes run through 00, 01, 11, 10, 00 (each repeated any positive number
of times) returns `DIR_NONE` on every poll, the poll that reaches the final 00
included, and leaves the machine in `R_CCW_NEXT`: no `DIR_CW` is returned. -/
theorem C1_claimed_cw_sequence_returns_no_event (e : OneWireRotaryEncoder) (ss : List Nat)
    (a b c d f : Nat) (hstart : e.State = R_START)
    (hcodes : ss.map (pins e) =
      List.replicate (a + 1) (false, false) ++ (List.replicate (b + 1) (false, true) ++
        (List.replicate (c + 1) (true, true) ++ (List.replicate (d + 1) (true, false) ++
          List.replicate (f + 1) (false, false))))) :
    (polls e ss).map (fun r => (r.1.State, r.2)) =
      some (R_CCW_NEXT, List.replicate ((a + 1) + ((b + 1) + ((c + 1) + ((d + 1) + (f + 1)))))
        DIR_NONE) := by
  rw [polls_eq_advances, hcodes, hstart,
    advances_block R_START R_START false false a _ rfl rfl rfl,
    advances_block R_START R_CW_BEGIN false true b _ rfl rfl rfl,
    advances_block R_CW_BEGIN R_START true true c _ rfl rfl rfl,
    advances_block R_START R_CCW_BEGIN true false d _ rfl rfl rfl,
    advances_enter R_CCW_BEGIN R_CCW_NEXT false false f rfl rfl rfl]
  simp only [Option.map_some', List.append_replicate_replicate]

theorem C1_claimed_cw_sequence_returns_no_event_witness :
    sampleEncoder.State = R_START ∧
    [0, 320, 600, 490, 0].map (pins sampleEncoder) =
      [(false, false), (false, true), (true, true), (true, false), (false, false)] ∧
    (polls sampleEncoder [0, 320, 600, 490, 0]).map (fun r => (r.1.State, r.2)) =
      some (R_CCW_NEXT, [DIR_NONE, DIR_NONE, DIR_NONE, DIR_NONE, DIR_NONE]) :=
  ⟨rfl, by decide,
    C1_claimed_cw_sequence_returns_no_event sampleEncoder [0, 320, 600, 490, 0] 0 0 0 0 0 rfl
      (by decide)⟩

/-- C2. In the full-step table, from `R_START`, every sequence of polls whose
phase codes run through 00, 10, 11, 01, 00 (each repeated any positive number
of times) returns `DIR_NONE` on every poll, the poll that reaches the final 00
included, and leaves the machine in `R_CW_NEXT`: no `DIR_CCW` is returned. -/
theorem C2_claimed_ccw_sequence_returns_no_event (e : OneWireRotaryEncoder) (ss : List Nat)
    (a b c d f : Nat) (hstart : e.State = R_START)
    (hcodes : ss.map (pins e) =
      List.replicate (a + 1) (false, false) ++ (List.replicate (b + 1) (true, false) ++
        (List.replicate (c + 1) (true, true) ++ (List.replicate (d + 1) (false, true) ++
          List.replicate (f + 1) (false, false))))) :
    (polls e ss).map (fun r => (r.1.State, r.2)) =
      some (R_CW_NEXT, List.replicate ((a + 1) + ((b + 1) + ((c + 1) + ((d + 1) + (f + 1)))))
        DIR_NONE) := by
  rw [polls_eq_advances, hcodes, hstart,
    advances_block R_START R_START false false a _ rfl rfl rfl,
    advances_block R_START R_CCW_BEGIN true false b _ rfl rfl rfl,
    advances_block R_CCW_BEGIN R_START true true c _ rfl rfl rfl,
    advances_block R_START R_CW_BEGIN false true d _ rfl rfl rfl,
    advances_enter R_CW_BEGIN R_CW_NEXT false false f rfl rfl rfl]
  simp only [Option.map_some', List.append_replicate_replicate]

theorem C2_claimed_ccw_sequence_returns_no_event_witness :
    sampleEncoder.State = R_START ∧
    [0, 490, 600, 320, 0].map (pins sampleEncoder) =
      [(false, false), (true, false), (true, true), (false, true), (false, false)] ∧
    (polls sampleEncoder [0, 490, 600, 320, 0]).map (fun r => (r.1.State, r.2)) =
      some (R_CW_NEXT, [DIR_NONE, DIR_NONE, DIR_NONE, DIR_NONE, DIR_NONE]) :=
  ⟨rfl, by decide,
    C2_claimed_ccw_sequence_returns_no_event sampleEncoder [0, 490, 600, 320, 0] 0 0 0 0 0 rfl
      (by decide)⟩

/-- C3. In the full-step table, from `R_START`, every sequence of polls whose
phase codes run 00, 01, 00 (a rotation begun and reversed to its starting code,
each code repeated any positive number of times) returns `DIR_NONE` on every
poll but leaves the machine in `R_CW_NEXT`, not in `R_START`. -/
theorem C3_reversal_from_00_ends_in_cw_next (e : OneWireRotaryEncoder) (ss : List Nat)
    (a b c : Nat) (hstart : e.State = R_START)
    (hcodes : ss.map (pins e) =
      List.replicate (a + 1) (false, false) ++ (List.replicate (b + 1) (false, true) ++
        List.replicate (c + 1) (false, false))) :
    (polls e ss).map (fun r => (r.1.State, r.2)) =
      some (R_CW_NEXT, List.replicate ((a + 1) + ((b + 1) + (c + 1))) DIR_NONE) ∧
    R_CW_NEXT ≠ R_START := by
  refine ⟨?_, by decide⟩
  rw [polls_eq_advances, hcodes, hstart,
    advances_block R_START R_START false false a _ rfl rfl rfl,
    advances_block R_START R_CW_BEGIN false true b _ rfl rfl rfl,
    advances_enter R_CW_BEGIN R_CW_NEXT false false c rfl rfl rfl]
  simp only [Option.map_some', List.append_replicate_replicate]

theorem C3_reversal_from_00_ends_in_cw_next_witness :
    sampleEncoder.State = R_START ∧
    [0, 320, 0].map (pins sampleEncoder) = [(false, false), (false, true), (false, false)] ∧
    (polls sampleEncoder [0, 320, 0]).map (fun r => (r.1.State, r.2)) =
      some (R_CW_NEXT, [DIR_NONE, DIR_NONE, DIR_NONE]) ∧ R_CW_NEXT ≠ R_START :=
  ⟨rfl, by decide,
    C3_reversal_from_00_ends_in_cw_next sampleEncoder [0, 320, 0] 0 0 0 rfl (by decide)⟩

/-- The event poll: from `R_CW_FINAL`, holding 11 returns `DIR_CW` on the first
poll and `DIR_NONE` afterwards. -/
theorem advances_cw_final (f : Nat) :
    advances R_CW_FINAL (List.replicate (f + 1) (true, true)) =
      some (if f = 0 then R_START ||| DIR_CW else R_START, DIR_CW :: List.replicate f DIR_NONE) := by
  cases f with
  | zero => rfl
  | succ f =>
    have h := advances_enter (R_START ||| DIR_CW) R_START true true f rfl rfl rfl
    have hstep : advance R_CW_FINAL true true = some (R_START ||| DIR_CW) := rfl
    rw [List.replicate_succ, advances, hstep, Option.some_bind, h]
    rfl

/-- Relative to the rest code 11 of the table a begun and reversed rotation
does return to `R_START`: the codes 11, 01, 11 return `DIR_NONE` throughout. -/
theorem reversal_at_rest_11 (a b c : Nat) :
    advances R_START
      (List.replicate (a + 1) (true, true) ++ (List.replicate (b + 1) (false, true) ++
        List.replicate (c + 1) (true, true))) =
      some (R_START, List.replicate ((a + 1) + ((b + 1) + (c + 1))) DIR_NONE) := by
  rw [advances_block R_START R_START true true a _ rfl rfl rfl,
    advances_block R_START R_CW_BEGIN false true b _ rfl rfl rfl,
    advances_enter R_CW_BEGIN R_START true true c rfl rfl rfl]
  simp only [Option.map_some', List.append_replicate_replicate]

/-- The only path of the full-step table to `DIR_CW` rests at phase code 11:
the codes 11, 01, 00, 10, 11 from `R_START` return `DIR_CW` once, on the poll
that first reaches the final 11, and `DIR_NONE` on every other poll. -/
theorem cw_cycle_rests_at_11 (a b c d f : Nat) :
    advances R_START
      (List.replicate (a + 1) (true, true) ++ (List.replicate (b + 1) (false, true) ++
        (List.replicate (c + 1) (false, false) ++ (List.replicate (d + 1) (true, false) ++
          List.replicate (f + 1) (true, true))))) =
      some (if f = 0 then R_START ||| DIR_CW else R_START,
        List.replicate ((a + 1) + ((b + 1) + ((c + 1) + (d + 1)))) DIR_NONE ++
          DIR_CW :: List.replicate f DIR_NONE) := by
  rw [advances_block R_START R_START true true a _ rfl rfl rfl,
    advances_block R_START R_CW_BEGIN false true b _ rfl rfl rfl,
    advances_block R_CW_BEGIN R_CW_NEXT false false c _ rfl rfl rfl,
    advances_block R_CW_NEXT R_CW_FINAL true false d _ rfl rfl rfl,
    advances_cw_final f]
  simp only [Option.map_some', ← List.append_assoc, List.append_replicate_replicate]

/-! ## C4: the classifier inside `process` against the reference classifier -/

/-- For a sample in 0..1023 and a `uint8_t` band width the 16-bit wrap of the
upper bound cannot change the outcome of the band test. -/
theorem inBand_eq_inWindow (e : OneWireRotaryEncoder) (s V : Nat)
    (hw : e.ReadTolerance < 256) (hs : s ≤ 1023) :
    inBand e s V = Spec.inWindow V e.ReadTolerance s := by
  unfold inBand valueIsBetween Spec.inWindow
  rw [Bool.eq_iff_iff]
  simp only [Bool.and_eq_true, decide_eq_true_eq, ge_iff_le]
  constructor
  · rintro ⟨h1, h2⟩
    refine ⟨h1, ?_⟩
    have := Nat.mod_le (V + e.ReadTolerance) 65536
    omega
  · rintro ⟨h1, h2⟩
    refine ⟨h1, ?_⟩
    rw [Nat.mod_eq_of_lt (by omega)]
    exact h2

/-- C4. For every calibration profile whose band width is a `uint8_t` value and
every raw sample in 0..1023, the pin states and the button level computed inside
`process()` equal the reference classifier: `phaseA` is the union of the A, A+B,
Button+A, Button+A+B bands, `phaseB` that of the B, A+B, Button+B, Button+A+B
bands, `buttonPressed` that of the four button bands; `process()` feeds exactly
these to the table and stores exactly this button level; a sample in none of the
seven bands gives all three false. -/
theorem C4_classifier_matches_reference (e : OneWireRotaryEncoder) (s : Nat)
    (hw : e.ReadTolerance < 256) (hs : s ≤ 1023) :
    PinAState e (s % 65536) = Spec.phaseA e.ExpectedValues e.ReadTolerance s ∧
    PinBState e (s % 65536) = Spec.phaseB e.ExpectedValues e.ReadTolerance s ∧
    ButtonLevel e (s % 65536) = Spec.buttonPressed e.ExpectedValues e.ReadTolerance s ∧
    process e s =
      (advance e.State (Spec.phaseA e.ExpectedValues e.ReadTolerance s)
        (Spec.phaseB e.ExpectedValues e.ReadTolerance s)).map (fun st =>
          ({ e with State := st,
                    ButtonPressed := Spec.buttonPressed e.ExpectedValues e.ReadTolerance s },
            st &&& 0x30)) ∧
    (Spec.inNoBand e.ExpectedValues e.ReadTolerance s →
      PinAState e (s % 65536) = false ∧ PinBState e (s % 65536) = false ∧
        ButtonLevel e (s % 65536) = false) := by
  have hmod : s % 65536 = s := Nat.mod_eq_of_lt (by omega)
  have hA : PinAState e (s % 65536) = Spec.phaseA e.ExpectedValues e.ReadTolerance s := by
    rw [hmod]
    simp only [PinAState, PinABState, ButtonABState, ButtonAState, Spec.phaseA,
      inBand_eq_inWindow e s _ hw hs]
    cases Spec.inWindow e.ExpectedValues.A e.ReadTolerance s <;>
      cases Spec.inWindow e.ExpectedValues.AB e.ReadTolerance s <;>
      cases Spec.inWindow e.ExpectedValues.ButtonA e.ReadTolerance s <;>
      cases Spec.inWindow e.ExpectedValues.ButtonAB e.ReadTolerance s <;> rfl
  have hB : PinBState e (s % 65536) = Spec.phaseB e.ExpectedValues e.ReadTolerance s := by
    rw [hmod]
    simp only [PinBState, PinABState, ButtonABState, ButtonBState, Spec.phaseB,
      inBand_eq_inWindow e s _ hw hs]
    cases Spec.inWindow e.ExpectedValues.B e.ReadTolerance s <;>
      cases Spec.inWindow e.ExpectedValues.AB e.ReadTolerance s <;>
      cases Spec.inWindow e.ExpectedValues.ButtonB e.ReadTolerance s <;>
      cases Spec.inWindow e.ExpectedValues.ButtonAB e.ReadTolerance s <;> rfl
  have hBtn : ButtonLevel e (s % 65536) =
      Spec.buttonPressed e.ExpectedValues e.ReadTolerance s := by
    rw [hmod]
    simp only [ButtonLevel, ButtonABState, ButtonAState, ButtonBState, Spec.buttonPressed,
      inBand_eq_inWindow e s _ hw hs]
    cases Spec.inWindow e.ExpectedValues.Button e.ReadTolerance s <;>
      cases Spec.inWindow e.ExpectedValues.ButtonA e.ReadTolerance s <;>
      cases Spec.inWindow e.ExpectedValues.ButtonB e.ReadTolerance s <;>
      cases Spec.inWindow e.ExpectedValues.ButtonAB e.ReadTolerance s <;> rfl
  refine ⟨hA, hB, hBtn, ?_, ?_⟩
  · simp only [process, hA, hB, hBtn]
  · rintro ⟨h1, h2, h3, h4, h5, h6, h7⟩
    rw [hA, hB, hBtn]
    simp [Spec.phaseA, Spec.phaseB, Spec.buttonPressed, h1, h2, h3, h4, h5, h6, h7]

theorem C4_classifier_matches_reference_witness :
    sampleEncoder.ReadTolerance < 256 ∧ 600 ≤ 1023 ∧
    PinAState sampleEncoder (600 % 65536) =
      Spec.phaseA sampleEncoder.ExpectedValues sampleEncoder.ReadTolerance 600 ∧
    PinBState sampleEncoder (600 % 65536) =
      Spec.phaseB sampleEncoder.ExpectedValues sampleEncoder.ReadTolerance 600 ∧
    ButtonLevel sampleEncoder (600 % 65536) =
      Spec.buttonPressed sampleEncoder.ExpectedValues sampleEncoder.ReadTolerance 600 ∧
    process sampleEncoder 600 =
      (advance sampleEncoder.State
        (Spec.phaseA sampleEncoder.ExpectedValues sampleEncoder.ReadTolerance 600)
        (Spec.phaseB sampleEncoder.ExpectedValues sampleEncoder.ReadTolerance 600)).map
          (fun st =>
            ({ sampleEncoder with
                State := st,
                ButtonPressed :=
                  Spec.buttonPressed sampleEncoder.ExpectedValues
                    sampleEncoder.ReadTolerance 600 },
              st &&& 0x30)) ∧
    (Spec.inNoBand sampleEncoder.ExpectedValues sampleEncoder.ReadTolerance 600 →
      PinAState sampleEncoder (600 % 65536) = false ∧
        PinBState sampleEncoder (600 % 65536) = false ∧
        ButtonLevel sampleEncoder (600 % 65536) = false) :=
  ⟨by decide, by decide,
    C4_classifier_matches_reference sampleEncoder 600 (by decide) (by decide)⟩

/-! ## C5-C8: the constructor and the bands it sets up -/

/-- An encoder without button resistor keeps the four button readings at 0. -/
theorem construct_no_button (divider : Nat → List Nat → Nat → Nat)
    (R2 REncoderA REncoderB ReadTolerance : Nat) :
    (construct divider R2 REncoderA REncoderB 0 ReadTolerance).ExpectedValues.Button = 0 ∧
    (construct divider R2 REncoderA REncoderB 0 ReadTolerance).ExpectedValues.ButtonA = 0 ∧
    (construct divider R2 REncoderA REncoderB 0 ReadTolerance).ExpectedValues.ButtonB = 0 ∧
    (construct divider R2 REncoderA REncoderB 0 ReadTolerance).ExpectedValues.ButtonAB = 0 := by
  simp [construct, Expected.zero]

/-- A band anchored at 0 contains the reading 0, whatever the band width. -/
theorem inBand_zero (e : OneWireRotaryEncoder) : inBand e 0 0 = true := by
  simp [inBand, valueIsBetween]

/-- For tolerances up to 127 and an upper bound that fits 16 bits the band test
is the window `[V, V + 2 * tolerance]`, inclusive at both ends. -/
theorem inBand_small_tolerance (divider : Nat → List Nat → Nat → Nat)
    (R2 REncoderA REncoderB REncoderButton t V s : Nat)
    (ht : t ≤ 127) (hV : V + 2 * t < 65536) :
    inBand (construct divider R2 REncoderA REncoderB REncoderButton t) s V =
      decide (V ≤ s ∧ s ≤ V + 2 * t) := by
  have h1 : t % 256 = t := Nat.mod_eq_of_lt (by omega)
  have h2 : t * 2 % 256 = t * 2 := Nat.mod_eq_of_lt (by omega)
  have h3 : (V + t * 2) % 65536 = V + t * 2 := Nat.mod_eq_of_lt (by omega)
  simp only [inBand, valueIsBetween, construct, h1, h2, h3]
  rw [Bool.eq_iff_iff]
  simp only [Bool.and_eq_true, decide_eq_true_eq, ge_iff_le]
  omega

/-- C5. The constructor stores `ReadTolerance * 2` in a `uint8_t`: for the
accepted tolerance 128 the stored band width is 0, so for every expected value
`V` the band test rejects the sample `V + 1`, which lies inside the window
`[V, V + 2 * 128]`. -/
theorem C5_band_width_wraps_at_tolerance_128 (divider : Nat → List Nat → Nat → Nat)
    (R2 REncoderA REncoderB REncoderButton V : Nat) :
    (construct divider R2 REncoderA REncoderB REncoderButton 128).ReadTolerance = 0 ∧
    inBand (construct divider R2 REncoderA REncoderB REncoderButton 128) (V + 1) V = false ∧
    (V ≤ V + 1 ∧ V + 1 ≤ V + 2 * 128) := by
  have hw : (construct divider R2 REncoderA REncoderB REncoderButton 128).ReadTolerance = 0 := by
    simp [construct]
  refine ⟨hw, ?_, by omega, by omega⟩
  have := Nat.mod_le V 65536
  simp only [inBand, valueIsBetween, hw, Nat.add_zero, Bool.and_eq_false_imp,
    decide_eq_true_eq, decide_eq_false_iff_not]
  omega

/-- A reading accepted by a band of stored width 0 equals the expected value. -/
theorem inBand_width_zero (e : OneWireRotaryEncoder) (s V : Nat)
    (hw : e.ReadTolerance = 0) (h : inBand e s V = true) : s = V := by
  have := Nat.mod_le V 65536
  simp only [inBand, valueIsBetween, hw, Nat.add_zero, Bool.and_eq_true,
    decide_eq_true_eq, ge_iff_le] at h
  omega

/-- C6. Encoder with R2 = 10000, REncoderA = 10000, REncoderB = 20000, no button
and tolerance 128, whatever the floating-point computation stores as expected
readings: the ideal reading of combination A is 511.5, the samples 400, 401 and
402 lie strictly between `I - 128` and `I + 128`, and at least one of them is
classified with `PinAState` false. -/
theorem C6_sample_within_tolerance_not_classified (divider : Nat → List Nat → Nat → Nat) :
    Spec.ideal 10000 [10000] = 1023 / 2 ∧
    (∀ s ∈ [400, 401, 402], Spec.ideal 10000 [10000] - 128 < ((s : Nat) : ℚ) ∧
      ((s : Nat) : ℚ) < Spec.ideal 10000 [10000] + 128) ∧
    ∃ s ∈ [400, 401, 402], (pins (construct divider 10000 10000 20000 0 128) s).1 = false := by
  have hI : Spec.ideal 10000 [10000] = 1023 / 2 := by norm_num [Spec.ideal]
  refine ⟨hI, ?_, ?_⟩
  · intro s hs
    rw [hI]
    simp only [List.mem_cons, List.mem_singleton, List.not_mem_nil, or_false] at hs
    rcases hs with h | h | h <;> subst h <;> norm_num
  · have hw : (construct divider 10000 10000 20000 0 128).ReadTolerance = 0 := by
      simp [construct]
    obtain ⟨_, hbA, _, hbAB⟩ := construct_no_button divider 10000 10000 20000 128
    have key : ∀ s, 0 < s → s < 65536 →
        (pins (construct divider 10000 10000 20000 0 128) s).1 = true →
        s = (construct divider 10000 10000 20000 0 128).ExpectedValues.AB ∨
        s = (construct divider 10000 10000 20000 0 128).ExpectedValues.A := by
      intro s hs0 hs1 h
      have hmod : s % 65536 = s := Nat.mod_eq_of_lt hs1
      simp only [pins, PinAState, PinABState, ButtonABState, ButtonAState, hmod, hbA, hbAB,
        Bool.or_eq_true] at h
      rcases h with ((h | h) | h) | h
      · exact Or.inl (inBand_width_zero _ _ _ hw h)
      · exact absurd (inBand_width_zero _ _ _ hw h) (by omega)
      · exact absurd (inBand_width_zero _ _ _ hw h) (by omega)
      · exact Or.inr (inBand_width_zero _ _ _ hw h)
    by_contra hcon
    push_neg at hcon
    have h0 := key 400 (by omega) (by omega) (by simpa using hcon 400 (by simp))
    have h1 := key 401 (by omega) (by omega) (by simpa using hcon 401 (by simp))
    have h2 := key 402 (by omega) (by omega) (by simpa using hcon 402 (by simp))
    omega

/-- C7. Encoder with R2 = 10000, REncoderA = 10000, REncoderB = 20000, no button
and tolerance 25, whatever the floating-point computation stores for A, B and
A+B: the button bands are anchored at 0, the raw sample 0 lies in them, and
`process()` classifies it as `PinAState` true and `PinBState` true, feeding phase
code 11 (column 3) to the table. -/
theorem C7_sample_zero_classified_as_both_closed (divider : Nat → List Nat → Nat → Nat) :
    pins (construct divider 10000 10000 20000 0 25) 0 = (true, true) ∧
    phaseCode true true = 3 ∧
    process (construct divider 10000 10000 20000 0 25) 0 =
      some ({ construct divider 10000 10000 20000 0 25 with
                State := R_START, ButtonPressed := true }, DIR_NONE) := by
  obtain ⟨hb, hbA, hbB, hbAB⟩ := construct_no_button divider 10000 10000 20000 25
  have hA : PinAState (construct divider 10000 10000 20000 0 25) 0 = true := by
    simp [PinAState, ButtonABState, hbAB, inBand_zero]
  have hB : PinBState (construct divider 10000 10000 20000 0 25) 0 = true := by
    simp [PinBState, ButtonABState, hbAB, inBand_zero]
  have hL : ButtonLevel (construct divider 10000 10000 20000 0 25) 0 = true := by
    simp [ButtonLevel, ButtonABState, hbAB, inBand_zero]
  have hS : (construct divider 10000 10000 20000 0 25).State = R_START := rfl
  refine ⟨by simp [pins, hA, hB], by decide, ?_⟩
  simp only [process, Nat.zero_mod, hA, hB, hL, hS]
  rfl

/-- C8. For every encoder constructed with `REncoderButton = 0` (any R2,
REncoderA, REncoderB, tolerance, and whatever the floating-point computation
stores for A, B, A+B) the Button, Button+A, Button+B and Button+A+B expected
readings are 0, and the `process()` call with raw sample 0 returns and leaves
`buttonPressed()` true. -/
theorem C8_no_button_sample_zero_reports_pressed (divider : Nat → List Nat → Nat → Nat)
    (R2 REncoderA REncoderB ReadTolerance : Nat) :
    (construct divider R2 REncoderA REncoderB 0 ReadTolerance).ExpectedValues.Button = 0 ∧
    (construct divider R2 REncoderA REncoderB 0 ReadTolerance).ExpectedValues.ButtonA = 0 ∧
    (construct divider R2 REncoderA REncoderB 0 ReadTolerance).ExpectedValues.ButtonB = 0 ∧
    (construct divider R2 REncoderA REncoderB 0 ReadTolerance).ExpectedValues.ButtonAB = 0 ∧
    ∃ e1 r, process (construct divider R2 REncoderA REncoderB 0 ReadTolerance) 0 = some (e1, r) ∧
      buttonPressed e1 = true := by
  obtain ⟨hb, hbA, hbB, hbAB⟩ := construct_no_button divider R2 REncoderA REncoderB ReadTolerance
  refine ⟨hb, hbA, hbB, hbAB, ?_⟩
  have hA : PinAState (construct divider R2 REncoderA REncoderB 0 ReadTolerance) 0 = true := by
    simp [PinAState, ButtonABState, hbAB, inBand_zero]
  have hB : PinBState (construct divider R2 REncoderA REncoderB 0 ReadTolerance) 0 = true := by
    simp [PinBState, ButtonABState, hbAB, inBand_zero]
  have hL : ButtonLevel (construct divider R2 REncoderA REncoderB 0 ReadTolerance) 0 = true := by
    simp [ButtonLevel, ButtonABState, hbAB, inBand_zero]
  have hS : (construct divider R2 REncoderA REncoderB 0 ReadTolerance).State = R_START := rfl
  refine ⟨{ construct divider R2 REncoderA REncoderB 0 ReadTolerance with
      State := R_START, ButtonPressed := true }, DIR_NONE, ?_, rfl⟩
  simp only [process, Nat.zero_mod, hA, hB, hL, hS]
  rfl

/-! ## C9-C10: what `process` returns and what it depends on -/

/-- From a reachable state byte `process` returns, the new state byte is
reachable and the returned byte is its direction code, one of the three. -/
theorem process_reachable (e : OneWireRotaryEncoder) (s : Nat) (h : Reachable e.State) :
    ∃ e1 r, process e s = some (e1, r) ∧ Reachable e1.State ∧
      (r = DIR_NONE ∨ r = DIR_CW ∨ r = DIR_CCW) := by
  obtain ⟨st, hadv, hr⟩ := advance_reachable e.State (pins e s).1 (pins e s).2 h
  obtain ⟨e1, hp, hst, _, _, _⟩ := process_some e s st hadv
  refine ⟨e1, st &&& 0x30, hp, hst ▸ hr, ?_⟩
  have hcases : st = 0 ∨ st = 1 ∨ st = 2 ∨ st = 3 ∨ st = 4 ∨ st = 5 ∨ st = 6 ∨
      st = 0x10 ∨ st = 0x20 := by
    unfold Reachable at hr; omega
  rcases hcases with h | h | h | h | h | h | h | h | h <;> subst h <;> decide

theorem polls_reachable (e : OneWireRotaryEncoder) (ss : List Nat) (h : Reachable e.State) :
    ∃ e1 rs, polls e ss = some (e1, rs) ∧ Reachable e1.State := by
  induction ss generalizing e with
  | nil => exact ⟨e, [], rfl, h⟩
  | cons s rest ih =>
    obtain ⟨e1, r, hp, hr, _⟩ := process_reachable e s h
    obtain ⟨e2, rs, hps, hr2⟩ := ih e1 hr
    exact ⟨e2, r :: rs, by simp [polls, hp, hps], hr2⟩

/-- C9. For every encoder state reached from `R_START` by any sequence of polls
and every raw sample, `process()` returns, and the byte it returns is exactly
one of 0x00 (`DIR_NONE`), 0x10 (`DIR_CW`) or 0x20 (`DIR_CCW`). -/
theorem C9_process_returns_direction_code (e : OneWireRotaryEncoder) (ss : List Nat) (s : Nat)
    (hstart : e.State = R_START) :
    ∃ e1 rs e2 r, polls e ss = some (e1, rs) ∧ process e1 s = some (e2, r) ∧
      (r = 0x00 ∨ r = 0x10 ∨ r = 0x20) := by
  have h0 : Reachable e.State := by rw [hstart]; unfold Reachable R_START; omega
  obtain ⟨e1, rs, hps, hr⟩ := polls_reachable e ss h0
  obtain ⟨e2, r, hp, _, hret⟩ := process_reachable e1 s hr
  exact ⟨e1, rs, e2, r, hps, hp, hret⟩

theorem C9_process_returns_direction_code_witness :
    sampleEncoder.State = R_START ∧
    ∃ e1 rs e2 r, polls sampleEncoder [600, 320, 0, 490] = some (e1, rs) ∧
      process e1 600 = some (e2, r) ∧ (r = 0x00 ∨ r = 0x10 ∨ r = 0x20) :=
  ⟨rfl, C9_process_returns_direction_code sampleEncoder [600, 320, 0, 490] 600 rfl⟩

/-- Every row 0..6 of the table has an entry for every phase code. -/
theorem advance_defined (st : Nat) (a b : Bool) (h : st &&& 0xf < 7) :
    ∃ st1, advance st a b = some st1 := by
  unfold advance
  generalize st &&& 0xf = row at h
  interval_cases row <;> cases a <;> cases b <;> exact ⟨_, rfl⟩

/-- C10. Button level and rotation state do not influence each other.  For every
encoder whose state id indexes a row of the table: two raw samples that classify
to the same pin states (whatever their button levels, in particular different
ones) make `process()` yield the same new state byte and the same returned
direction code; and for every raw sample the value `buttonPressed()` returns
after `process()` is the same for any other state byte and previous button level
of the same calibration. -/
theorem C10_button_and_rotation_independent (e e2 : OneWireRotaryEncoder) (s1 s2 s : Nat)
    (hid : e.State &&& 0xf < 7) (hid2 : e2.State &&& 0xf < 7)
    (hv : e2.ExpectedValues = e.ExpectedValues) (ht : e2.ReadTolerance = e.ReadTolerance)
    (hpins : pins e s1 = pins e s2) :
    (∃ r1 r2, process e s1 = some r1 ∧ process e s2 = some r2 ∧
      r1.1.State = r2.1.State ∧ r1.2 = r2.2) ∧
    (∃ q q2, process e s = some q ∧ process e2 s = some q2 ∧
      buttonPressed q.1 = buttonPressed q2.1) := by
  constructor
  · obtain ⟨st, hadv⟩ := advance_defined e.State (pins e s1).1 (pins e s1).2 hid
    obtain ⟨r1, hp1, hst1, _, _, _⟩ := process_some e s1 st hadv
    rw [hpins] at hadv
    obtain ⟨r2, hp2, hst2, _, _, _⟩ := process_some e s2 st hadv
    exact ⟨_, _, hp1, hp2, by rw [hst1, hst2], rfl⟩
  · obtain ⟨st, hadv⟩ := advance_defined e.State (pins e s).1 (pins e s).2 hid
    obtain ⟨q, hq, _, _, _, hb⟩ := process_some e s st hadv
    obtain ⟨st2, hadv2⟩ := advance_defined e2.State (pins e2 s).1 (pins e2 s).2 hid2
    obtain ⟨q2, hq2, _, _, _, hb2⟩ := process_some e2 s st2 hadv2
    refine ⟨_, _, hq, hq2, ?_⟩
    simp only [buttonPressed, hb, hb2, ButtonLevel, ButtonAState, ButtonBState, ButtonABState,
      inBand, hv, ht]

theorem C10_button_and_rotation_independent_witness :
    ButtonLevel sampleEncoder (0 % 65536) ≠ ButtonLevel sampleEncoder (660 % 65536) ∧
    (∃ r1 r2, process sampleEncoder 0 = some r1 ∧ process sampleEncoder 660 = some r2 ∧
      r1.1.State = r2.1.State ∧ r1.2 = r2.2) ∧
    (∃ q q2, process sampleEncoder 660 = some q ∧
      process { sampleEncoder with State := R_CW_NEXT, ButtonPressed := true } 660 = some q2 ∧
      buttonPressed q.1 = buttonPressed q2.1) :=
  ⟨by decide,
    C10_button_and_rotation_independent sampleEncoder
      { sampleEncoder with State := R_CW_NEXT, ButtonPressed := true } 0 660 660
      (by decide) (by decide) rfl rfl (by decide)⟩

/-! ## C11: the table read of `process` stays inside the table -/

/-- C11. For every sequence of polls from `R_START` the poll loop returns, and
the state byte it leaves has a state id (low nibble) of at most 6, direction
bits equal to 0x00, 0x10 or 0x20 and no other bit set; for every further
sample the phase code is at most 3 and `StateTable[State & 0xf][phase code]`
is a defined entry of the table. -/
theorem C11_table_read_in_range (e : OneWireRotaryEncoder) (ss : List Nat) (s : Nat)
    (hstart : e.State = R_START) :
    ∃ e1 rs, polls e ss = some (e1, rs) ∧
      e1.State &&& 0xf ≤ 6 ∧
      (e1.State &&& 0x30 = 0x00 ∨ e1.State &&& 0x30 = 0x10 ∨ e1.State &&& 0x30 = 0x20) ∧
      e1.State = (e1.State &&& 0xf) ||| (e1.State &&& 0x30) ∧
      phaseCode (pins e1 s).1 (pins e1 s).2 ≤ 3 ∧
      ∃ v, tableAt (e1.State &&& 0xf) (phaseCode (pins e1 s).1 (pins e1 s).2) = some v := by
  have h0 : Reachable e.State := by rw [hstart]; unfold Reachable R_START; omega
  obtain ⟨e1, rs, hps, hr⟩ := polls_reachable e ss h0
  obtain ⟨v, hv, _⟩ := advance_reachable e1.State (pins e1 s).1 (pins e1 s).2 hr
  have hcode : phaseCode (pins e1 s).1 (pins e1 s).2 ≤ 3 := by
    cases (pins e1 s).1 <;> cases (pins e1 s).2 <;> decide
  have hcases : e1.State = 0 ∨ e1.State = 1 ∨ e1.State = 2 ∨ e1.State = 3 ∨ e1.State = 4 ∨
      e1.State = 5 ∨ e1.State = 6 ∨ e1.State = 0x10 ∨ e1.State = 0x20 := by
    unfold Reachable at hr; omega
  refine ⟨e1, rs, hps, ?_, ?_, ?_, hcode, v, hv⟩
  · rcases hcases with h | h | h | h | h | h | h | h | h <;> rw [h] <;> decide
  · rcases hcases with h | h | h | h | h | h | h | h | h <;> rw [h] <;> decide
  · rcases hcases with h | h | h | h | h | h | h | h | h <;> rw [h] <;> decide

theorem C11_table_read_in_range_witness :
    sampleEncoder.State = R_START ∧
    ∃ e1 rs, polls sampleEncoder [600, 320, 0, 490, 600] = some (e1, rs) ∧
      e1.State &&& 0xf ≤ 6 ∧
      (e1.State &&& 0x30 = 0x00 ∨ e1.State &&& 0x30 = 0x10 ∨ e1.State &&& 0x30 = 0x20) ∧
      e1.State = (e1.State &&& 0xf) ||| (e1.State &&& 0x30) ∧
      phaseCode (pins e1 320).1 (pins e1 320).2 ≤ 3 ∧
      ∃ v, tableAt (e1.State &&& 0xf) (phaseCode (pins e1 320).1 (pins e1 320).2) = some v :=
  ⟨rfl, C11_table_read_in_range sampleEncoder [600, 320, 0, 490, 600] 320 rfl⟩

/-! ## C13, C15: single transitions of the table -/

/-- Rows 7 and beyond do not exist. -/
theorem tableAt_row_lt (row col v : Nat) (h : tableAt row col = some v) : row < 7 := by
  by_contra hge
  have hnone : StateTable.get? row = none := by
    apply List.get?_eq_none.mpr
    simp only [StateTable, List.length_cons, List.length_nil]
    omega
  unfold tableAt at h
  rw [hnone] at h
  cases h

/-- C13 (as stated, refuted). The mid-sequence state `R_CW_NEXT` read with phase
code 01, which neither holds it nor advances it to `R_CW_FINAL`, goes to
`R_CW_BEGIN`, not to `R_START`. -/
theorem C13_step_back_is_not_a_reset :
    MidState R_CW_NEXT ∧
    advance R_CW_NEXT false true ≠ some R_CW_NEXT ∧
    advance R_CW_NEXT false true ≠ some (nextStep R_CW_NEXT) ∧
    advance R_CW_NEXT false true = some R_CW_BEGIN ∧
    advance R_CW_NEXT false true ≠ some R_START := by
  refine ⟨Or.inr (Or.inl rfl), ?_, ?_, rfl, ?_⟩ <;> decide

/-- C13 (amended). For every mid-sequence state and every phase code that
neither holds the machine in that state nor advances it to the next step of its
sequence, the transition carries no direction code, and it resets the machine to
`R_START` unless the code is that of the previous step of the sequence, which
takes the machine back to that step: `R_CW_NEXT` on 01 to `R_CW_BEGIN`,
`R_CW_FINAL` on 00 to `R_CW_NEXT`, `R_CCW_NEXT` on 10 to `R_CCW_BEGIN`,
`R_CCW_FINAL` on 00 to `R_CCW_NEXT`. -/
theorem C13_off_sequence_code_resets_or_steps_back (st : Nat) (a b : Bool)
    (hmid : MidState st) (hhold : advance st a b ≠ some st)
    (hstep : advance st a b ≠ some (nextStep st)) :
    advance st a b =
      some (if (st, phaseCode a b) ∈
          [(R_CW_NEXT, 1), (R_CW_FINAL, 0), (R_CCW_NEXT, 2), (R_CCW_FINAL, 0)]
        then prevStep st else R_START) ∧
    ∃ v, advance st a b = some v ∧ v &&& 0x30 = DIR_NONE := by
  rcases hmid with h | h | h | h | h | h <;> subst h <;> cases a <;> cases b <;>
    first
    | exact absurd rfl hhold
    | exact absurd rfl hstep
    | exact ⟨rfl, _, rfl, rfl⟩

theorem C13_off_sequence_code_resets_or_steps_back_witness :
    MidState R_CW_FINAL ∧
    advance R_CW_FINAL false false =
      some (if (R_CW_FINAL, phaseCode false false) ∈
          [(R_CW_NEXT, 1), (R_CW_FINAL, 0), (R_CCW_NEXT, 2), (R_CCW_FINAL, 0)]
        then prevStep R_CW_FINAL else R_START) ∧
    ∃ v, advance R_CW_FINAL false false = some v ∧ v &&& 0x30 = DIR_NONE :=
  ⟨Or.inr (Or.inr (Or.inl rfl)),
    C13_off_sequence_code_resets_or_steps_back R_CW_FINAL false false
      (Or.inr (Or.inr (Or.inl rfl))) (by decide) (by decide)⟩

/-- A table entry that carries a direction code has state id `R_START`. -/
theorem table_event_entry (row : Nat) (a b : Bool) (v : Nat)
    (h : tableAt row (phaseCode a b) = some v)
    (hev : v &&& 0x30 = DIR_CW ∨ v &&& 0x30 = DIR_CCW) : v &&& 0xf = R_START := by
  have hrow := tableAt_row_lt row _ v h
  interval_cases row <;> cases a <;> cases b <;>
    (obtain rfl : _ = v := Option.some.inj h) <;> first
    | rfl
    | (exfalso; revert hev; decide)

/-- C15. Every event-bearing transition of the full-step table lands in
`R_START`: for every state id 0..6 and every phase code the table entry exists,
and if it carries `DIR_CW` or `DIR_CCW` its state id is `R_START`; no entry of
the row of `R_START` carries a direction code; and whenever `process()` returns
`DIR_CW` or `DIR_CCW` the state id of the encoder is `R_START` afterwards. -/
theorem C15_event_transitions_land_in_start (row : Nat) (a b : Bool) (hrow : row ≤ 6) :
    (∃ v, tableAt row (phaseCode a b) = some v ∧
      ((v &&& 0x30 = DIR_CW ∨ v &&& 0x30 = DIR_CCW) → v &&& 0xf = R_START) ∧
      (row = R_START → v &&& 0x30 = DIR_NONE)) ∧
    ∀ (e e1 : OneWireRotaryEncoder) (s r : Nat), e.State &&& 0xf = row →
      process e s = some (e1, r) → (r = DIR_CW ∨ r = DIR_CCW) → e1.State &&& 0xf = R_START := by
  constructor
  · obtain ⟨v, hv⟩ : ∃ v, tableAt row (phaseCode a b) = some v := by
      interval_cases row <;> cases a <;> cases b <;> exact ⟨_, rfl⟩
    refine ⟨v, hv, table_event_entry row a b v hv, ?_⟩
    intro h0
    subst h0
    cases a <;> cases b <;> (obtain rfl : _ = v := Option.some.inj hv) <;> rfl
  · intro e e1 s r _ hp hev
    simp only [process, Option.map_eq_some', Prod.mk.injEq] at hp
    obtain ⟨st, hadv, he1, hr⟩ := hp
    subst he1
    subst hr
    exact table_event_entry _ _ _ st hadv hev

theorem C15_event_transitions_land_in_start_witness :
    (1 : Nat) ≤ 6 ∧
    (∃ v, tableAt 1 (phaseCode true true) = some v ∧
      ((v &&& 0x30 = DIR_CW ∨ v &&& 0x30 = DIR_CCW) → v &&& 0xf = R_START) ∧
      (1 = R_START → v &&& 0x30 = DIR_NONE)) ∧
    ∀ (e e1 : OneWireRotaryEncoder) (s r : Nat), e.State &&& 0xf = 1 →
      process e s = some (e1, r) → (r = DIR_CW ∨ r = DIR_CCW) → e1.State &&& 0xf = R_START :=
  ⟨by decide, C15_event_transitions_land_in_start 1 true true (by decide)⟩

/-! ## C14: two pin states alone never produce an event -/

theorem advance_two_codes (c1 c2 c : Bool × Bool) (st : Nat) (h : TwoCodeState c1 c2 st)
    (hc : c = c1 ∨ c = c2) :
    ∃ st1, advance st c.1 c.2 = some st1 ∧ st1 &&& 0x30 = DIR_NONE ∧ TwoCodeState c1 c2 st1 := by
  obtain ⟨a1, b1⟩ := c1
  obtain ⟨a2, b2⟩ := c2
  obtain ⟨a, b⟩ := c
  unfold TwoCodeState at h ⊢
  simp only [Prod.mk.injEq] at h hc ⊢
  rcases h with h | ⟨h, h1⟩ | ⟨h, h1, h2⟩ | ⟨h, h1⟩ | ⟨h, h1, h2⟩ <;> subst h <;>
    cases a <;> cases b <;> cases a1 <;> cases b1 <;> cases a2 <;> cases b2 <;>
    first
    | (exfalso; revert hc; decide)
    | (exfalso; revert h1; decide)
    | (exfalso; revert h2; decide)
    | exact ⟨_, rfl, rfl, by decide⟩

theorem advances_two_codes (c1 c2 : Bool × Bool) (cs : List (Bool × Bool)) (st : Nat)
    (h : TwoCodeState c1 c2 st) (hcs : ∀ c ∈ cs, c = c1 ∨ c = c2) :
    ∃ st1, advances st cs = some (st1, List.replicate cs.length DIR_NONE) := by
  induction cs generalizing st with
  | nil => exact ⟨st, rfl⟩
  | cons c rest ih =>
    obtain ⟨st1, hadv, h0, hinv⟩ := advance_two_codes c1 c2 c st h (hcs c (by simp))
    obtain ⟨st2, hrest⟩ := ih st1 hinv (fun x hx => hcs x (by simp [hx]))
    exact ⟨st2, by simp [advances, hadv, hrest, h0, List.replicate_succ]⟩

/-- C14. In the full-step table, from `R_START`, every sequence of polls whose
pin states take at most two distinct values (any two, for any number of polls)
returns, and `process()` returns `DIR_NONE` on every poll. -/
theorem C14_two_codes_never_emit (e : OneWireRotaryEncoder) (ss : List Nat)
    (c1 c2 : Bool × Bool) (hstart : e.State = R_START)
    (htwo : ∀ s ∈ ss, pins e s = c1 ∨ pins e s = c2) :
    ∃ e1, polls e ss = some (e1, List.replicate ss.length DIR_NONE) := by
  have h0 : Reachable e.State := by rw [hstart]; unfold Reachable R_START; omega
  obtain ⟨e1, rs, hps, _⟩ := polls_reachable e ss h0
  obtain ⟨st1, hadv⟩ := advances_two_codes c1 c2 (ss.map (pins e)) e.State
    (by rw [hstart]; exact Or.inl rfl)
    (by
      intro c hc
      obtain ⟨s, hs, rfl⟩ := List.mem_map.mp hc
      exact htwo s hs)
  have hlink := polls_eq_advances e ss
  rw [hps, hadv, List.length_map] at hlink
  simp only [Option.map_some', Option.some.injEq, Prod.mk.injEq] at hlink
  exact ⟨e1, by rw [hps, hlink.2]⟩

theorem C14_two_codes_never_emit_witness :
    sampleEncoder.State = R_START ∧
    (∀ s ∈ [600, 320, 600, 320, 320, 600],
      pins sampleEncoder s = (true, true) ∨ pins sampleEncoder s = (false, true)) ∧
    ∃ e1, polls sampleEncoder [600, 320, 600, 320, 320, 600] =
      some (e1, List.replicate [600, 320, 600, 320, 320, 600].length DIR_NONE) :=
  ⟨rfl, by decide,
    C14_two_codes_never_emit sampleEncoder [600, 320, 600, 320, 320, 600] (true, true)
      (false, true) rfl (by decide)⟩

/-! ## C12: an event is preceded by the three steps of its sequence -/

theorem sublist_snoc_two (x y : Nat) (seg : List Nat) (h : List.Sublist [x] seg) :
    List.Sublist [x, y] (seg ++ [y]) :=
  List.Sublist.append h (List.Sublist.refl [y])

theorem sublist_snoc_three (x y z : Nat) (seg : List Nat) (h : List.Sublist [x, y] seg) :
    List.Sublist [x, y, z] (seg ++ [z]) :=
  List.Sublist.append h (List.Sublist.refl [z])

theorem sublist_first_of_two (x y : Nat) (seg : List Nat) (h : List.Sublist [x, y] seg) :
    List.Sublist [x] seg :=
  List.Sublist.trans (List.sublist_append_left [x] [y]) h

theorem sublist_two_of_three (x y z : Nat) (seg : List Nat) (h : List.Sublist [x, y, z] seg) :
    List.Sublist [x, y] (seg) :=
  List.Sublist.trans (List.sublist_append_left [x, y] [z]) h

/-- One transition keeps the record of the steps passed since `R_START`. -/
theorem progress_step (st st1 : Nat) (a b : Bool) (seg : List Nat) (hr : Reachable st)
    (hadv : advance st a b = some st1) (hp : Progress st seg) :
    Progress st1 (segStep seg st1) := by
  have hst : st = 0 ∨ st = 1 ∨ st = 2 ∨ st = 3 ∨ st = 4 ∨ st = 5 ∨ st = 6 ∨
      st = 0x10 ∨ st = 0x20 := by
    unfold Reachable at hr; omega
  obtain ⟨p1, p2, p3, p4, p5, p6⟩ := hp
  rcases hst with h | h | h | h | h | h | h | h | h <;> subst h <;>
    cases a <;> cases b <;> (obtain rfl : _ = st1 := Option.some.inj hadv) <;>
    refine ⟨?_, ?_, ?_, ?_, ?_, ?_⟩ <;> intro hq <;>
    first
    | exact absurd hq (by decide)
    | exact List.sublist_append_right _ _
    | exact sublist_snoc_two _ _ _ (p1 rfl)
    | exact sublist_snoc_two _ _ _ (sublist_first_of_two _ _ _ (p2 rfl))
    | exact sublist_snoc_two _ _ _
        (sublist_first_of_two _ _ _ (sublist_two_of_three _ _ _ _ (p3 rfl)))
    | exact sublist_snoc_three _ _ _ _ (p2 rfl)
    | exact sublist_snoc_three _ _ _ _ (sublist_two_of_three _ _ _ _ (p3 rfl))
    | exact sublist_snoc_two _ _ _ (p4 rfl)
    | exact sublist_snoc_two _ _ _ (sublist_first_of_two _ _ _ (p5 rfl))
    | exact sublist_snoc_two _ _ _
        (sublist_first_of_two _ _ _ (sublist_two_of_three _ _ _ _ (p6 rfl)))
    | exact sublist_snoc_three _ _ _ _ (p5 rfl)
    | exact sublist_snoc_three _ _ _ _ (sublist_two_of_three _ _ _ _ (p6 rfl))

/-- Along every run of polls the history ends in the current state byte and the
current state records the steps passed since `R_START`. -/
theorem history_progress (ss : List Nat) (e : OneWireRotaryEncoder) (acc : List Nat)
    (hr : Reachable e.State) (hp : Progress e.State (segStep acc e.State)) :
    ∃ H e1 rs, history e ss = some H ∧ polls e ss = some (e1, rs) ∧
      H.getLast? = some e1.State ∧ Reachable e1.State ∧
      Progress e1.State (H.foldl segStep acc) := by
  induction ss generalizing e acc with
  | nil => exact ⟨[e.State], e, [], rfl, rfl, rfl, hr, hp⟩
  | cons s rest ih =>
    obtain ⟨st, hadv, hr1⟩ := advance_reachable e.State (pins e s).1 (pins e s).2 hr
    obtain ⟨e1, hproc, hst, _, _, _⟩ := process_some e s st hadv
    have hp1 : Progress e1.State (segStep (segStep acc e.State) e1.State) := by
      rw [hst]
      exact progress_step e.State st _ _ _ hr hadv hp
    obtain ⟨H, e2, rs, hH, hps, hlast, hr2, hp2⟩ := ih e1 (segStep acc e.State) (hst ▸ hr1) hp1
    refine ⟨e.State :: H, e2, (st &&& 0x30) :: rs, ?_, ?_, ?_, hr2, ?_⟩
    · simp [history, hproc, hH]
    · simp [polls, hproc, hps]
    · cases H with
      | nil => simp at hlast
      | cons x xs => simpa using hlast
    · simpa [List.foldl_cons] using hp2

/-- C12. In the full-step table, for every sequence of polls from `R_START` and
the poll that follows it: if that poll returns `DIR_CW`, then the state ids
passed through since the machine last was in `R_START` contain `R_CW_BEGIN`,
then `R_CW_NEXT`, then `R_CW_FINAL`, in that order, the machine is in
`R_CW_FINAL` before the poll and the poll takes it to `R_START` (with the
direction code); symmetrically for `DIR_CCW` with `R_CCW_BEGIN`, `R_CCW_NEXT`,
`R_CCW_FINAL`. -/
theorem C12_event_follows_full_sequence (e : OneWireRotaryEncoder) (ss : List Nat) (s : Nat)
    (hstart : e.State = R_START) :
    ∃ H e1 rs e2 r, history e ss = some H ∧ polls e ss = some (e1, rs) ∧
      H.getLast? = some e1.State ∧ process e1 s = some (e2, r) ∧
      (r = DIR_CW →
        List.Sublist [R_CW_BEGIN, R_CW_NEXT, R_CW_FINAL] (sinceStart H) ∧
        e1.State = R_CW_FINAL ∧ e2.State = R_START ||| DIR_CW) ∧
      (r = DIR_CCW →
        List.Sublist [R_CCW_BEGIN, R_CCW_NEXT, R_CCW_FINAL] (sinceStart H) ∧
        e1.State = R_CCW_FINAL ∧ e2.State = R_START ||| DIR_CCW) := by
  have h0 : Reachable e.State := by rw [hstart]; unfold Reachable R_START; omega
  have hp0 : Progress e.State (segStep [] e.State) := by
    rw [hstart]
    refine ⟨?_, ?_, ?_, ?_, ?_, ?_⟩ <;> intro hq <;> exact absurd hq (by decide)
  obtain ⟨H, e1, rs, hH, hps, hlast, hr1, hp1⟩ := history_progress ss e [] h0 hp0
  obtain ⟨st, hadv, _⟩ := advance_reachable e1.State (pins e1 s).1 (pins e1 s).2 hr1
  obtain ⟨e2, hproc, hst, _, _, _⟩ := process_some e1 s st hadv
  obtain ⟨_, _, p3, _, _, p6⟩ := hp1
  have hcases : e1.State = 0 ∨ e1.State = 1 ∨ e1.State = 2 ∨ e1.State = 3 ∨ e1.State = 4 ∨
      e1.State = 5 ∨ e1.State = 6 ∨ e1.State = 0x10 ∨ e1.State = 0x20 := by
    unfold Reachable at hr1; omega
  refine ⟨H, e1, rs, e2, st &&& 0x30, hH, hps, hlast, hproc, ?_, ?_⟩
  · intro hev
    have hfin : e1.State = R_CW_FINAL ∧ st = R_START ||| DIR_CW := by
      revert hadv
      generalize (pins e1 s).1 = a
      generalize (pins e1 s).2 = b
      intro hadv
      rcases hcases with h | h | h | h | h | h | h | h | h <;> rw [h] at hadv ⊢ <;>
        cases a <;> cases b <;> (obtain rfl : _ = st := Option.some.inj hadv) <;>
        first
        | exact ⟨rfl, rfl⟩
        | exact absurd hev (by decide)
    exact ⟨p3 hfin.1, hfin.1, hst.trans hfin.2⟩
  · intro hev
    have hfin : e1.State = R_CCW_FINAL ∧ st = R_START ||| DIR_CCW := by
      revert hadv
      generalize (pins e1 s).1 = a
      generalize (pins e1 s).2 = b
      intro hadv
      rcases hcases with h | h | h | h | h | h | h | h | h <;> rw [h] at hadv ⊢ <;>
        cases a <;> cases b <;> (obtain rfl : _ = st := Option.some.inj hadv) <;>
        first
        | exact ⟨rfl, rfl⟩
        | exact absurd hev (by decide)
    exact ⟨p6 hfin.1, hfin.1, hst.trans hfin.2⟩

theorem C12_event_follows_full_sequence_witness :
    sampleEncoder.State = R_START ∧
    ∃ H e1 rs e2 r, history sampleEncoder [600, 320, 0, 490] = some H ∧
      polls sampleEncoder [600, 320, 0, 490] = some (e1, rs) ∧
      H.getLast? = some e1.State ∧ process e1 600 = some (e2, r) ∧
      (r = DIR_CW →
        List.Sublist [R_CW_BEGIN, R_CW_NEXT, R_CW_FINAL] (sinceStart H) ∧
        e1.State = R_CW_FINAL ∧ e2.State = R_START ||| DIR_CW) ∧
      (r = DIR_CCW →
        List.Sublist [R_CCW_BEGIN, R_CCW_NEXT, R_CCW_FINAL] (sinceStart H) ∧
        e1.State = R_CCW_FINAL ∧ e2.State = R_START ||| DIR_CCW) :=
  ⟨rfl, C12_event_follows_full_sequence sampleEncoder [600, 320, 0, 490] 600 rfl⟩

/-! ## C16: the half-step table -/

theorem half_advance_reachable (st : Nat) (a b : Bool) (h : HalfStep.Reachable st) :
    ∃ st1, HalfStep.advance st a b = some st1 ∧ HalfStep.Reachable st1 ∧
      (st1 &&& 0x30 ≠ DIR_NONE → phaseCode a b = 0 ∨ phaseCode a b = 3) := by
  have hst : st = 0 ∨ st = 1 ∨ st = 2 ∨ st = 3 ∨ st = 4 ∨ st = 5 ∨
      st = 0x13 ∨ st = 0x23 ∨ st = 0x10 ∨ st = 0x20 := by
    unfold HalfStep.Reachable at h; omega
  rcases hst with h | h | h | h | h | h | h | h | h | h <;> subst h <;>
    cases a <;> cases b <;>
    exact ⟨_, rfl, by unfold HalfStep.Reachable; decide, by decide⟩

theorem half_process_some (e : OneWireRotaryEncoder) (s st : Nat)
    (h : HalfStep.advance e.State (pins e s).1 (pins e s).2 = some st) :
    ∃ e1, HalfStep.process e s = some (e1, st &&& 0x30) ∧ e1.State = st ∧
      e1.ExpectedValues = e.ExpectedValues ∧ e1.ReadTolerance = e.ReadTolerance := by
  simp only [pins] at h
  refine ⟨{ e with State := st, ButtonPressed := ButtonLevel e (s % 65536) }, ?_,
    rfl, rfl, rfl⟩
  simp [HalfStep.process, h]

theorem half_process_none (e : OneWireRotaryEncoder) (s : Nat)
    (h : HalfStep.advance e.State (pins e s).1 (pins e s).2 = none) :
    HalfStep.process e s = none := by
  simp only [pins] at h
  simp [HalfStep.process, h]

theorem half_polls_eq_advances (e : OneWireRotaryEncoder) (ss : List Nat) :
    (HalfStep.polls e ss).map (fun r => (r.1.State, r.2)) =
      HalfStep.advances e.State (ss.map (pins e)) := by
  induction ss generalizing e with
  | nil => simp [HalfStep.polls, HalfStep.advances]
  | cons s rest ih =>
    cases hadv : HalfStep.advance e.State (pins e s).1 (pins e s).2 with
    | none => simp [HalfStep.polls, HalfStep.advances, half_process_none e s hadv, hadv]
    | some st =>
      obtain ⟨e1, hp, hst, hv, ht⟩ := half_process_some e s st hadv
      have ih1 := ih e1
      have hpins : List.map (pins e1) rest = List.map (pins e) rest := by
        apply List.map_congr_left
        intro x _
        exact pins_congr e e1 x hv ht
      rw [hpins, hst] at ih1
      simp only [HalfStep.polls, hp, List.map_cons, HalfStep.advances, hadv, Option.some_bind]
      rw [← ih1]
      cases HalfStep.polls e1 rest with
      | none => rfl
      | some r => rfl

theorem half_polls_reachable (e : OneWireRotaryEncoder) (ss : List Nat)
    (h : HalfStep.Reachable e.State) :
    ∃ e1 rs, HalfStep.polls e ss = some (e1, rs) ∧ HalfStep.Reachable e1.State := by
  induction ss generalizing e with
  | nil => exact ⟨e, [], rfl, h⟩
  | cons s rest ih =>
    obtain ⟨st, hadv, hr, _⟩ := half_advance_reachable e.State (pins e s).1 (pins e s).2 h
    obtain ⟨e1, hp, hst, _, _⟩ := half_process_some e s st hadv
    obtain ⟨e2, rs, hps, hr2⟩ := ih e1 (hst ▸ hr)
    exact ⟨e2, (st &&& 0x30) :: rs, by simp [HalfStep.polls, hp, hps], hr2⟩

/-- C16. In the half-step build, from `R_START`: after any sequence of polls a
further poll returns, and it returns a direction code only if its phase code is
00 or 11; polls with the phase codes 11, 01, 00, 10, 11 return `DIR_CW` on the
poll that reaches 00 and `DIR_CW` again on the poll that reaches the final 11,
`DIR_NONE` otherwise, where the full-step build returns `DIR_CW` on the final 11
only. -/
theorem C16_half_step_emits_at_00_and_11 (e : OneWireRotaryEncoder) (ss cycle : List Nat)
    (s : Nat) (hstart : e.State = R_START)
    (hcycle : cycle.map (pins e) =
      [(true, true), (false, true), (false, false), (true, false), (true, true)]) :
    (∃ e1 rs e2 r, HalfStep.polls e ss = some (e1, rs) ∧
      HalfStep.process e1 s = some (e2, r) ∧
      (r ≠ DIR_NONE →
        phaseCode (pins e1 s).1 (pins e1 s).2 = 0 ∨ phaseCode (pins e1 s).1 (pins e1 s).2 = 3)) ∧
    (HalfStep.polls e cycle).map Prod.snd =
      some [DIR_NONE, DIR_NONE, DIR_CW, DIR_NONE, DIR_CW] ∧
    (polls e cycle).map Prod.snd = some [DIR_NONE, DIR_NONE, DIR_NONE, DIR_NONE, DIR_CW] := by
  have h0 : HalfStep.Reachable e.State := by
    rw [hstart]; unfold HalfStep.Reachable R_START; omega
  refine ⟨?_, ?_, ?_⟩
  · obtain ⟨e1, rs, hps, hr⟩ := half_polls_reachable e ss h0
    obtain ⟨st, hadv, _, hcode⟩ :=
      half_advance_reachable e1.State (pins e1 s).1 (pins e1 s).2 hr
    obtain ⟨e2, hp, _, _, _⟩ := half_process_some e1 s st hadv
    exact ⟨e1, rs, e2, st &&& 0x30, hps, hp, hcode⟩
  · have h := congrArg (Option.map Prod.snd) (half_polls_eq_advances e cycle)
    rw [hcycle, hstart] at h
    simp only [Option.map_map] at h
    exact h.trans rfl
  · have h := congrArg (Option.map Prod.snd) (polls_eq_advances e cycle)
    rw [hcycle, hstart] at h
    simp only [Option.map_map] at h
    exact h.trans rfl

theorem C16_half_step_emits_at_00_and_11_witness :
    sampleEncoder.State = R_START ∧
    (∃ e1 rs e2 r, HalfStep.polls sampleEncoder [600, 320, 0] = some (e1, rs) ∧
      HalfStep.process e1 490 = some (e2, r) ∧
      (r ≠ DIR_NONE →
        phaseCode (pins e1 490).1 (pins e1 490).2 = 0 ∨
          phaseCode (pins e1 490).1 (pins e1 490).2 = 3)) ∧
    (HalfStep.polls sampleEncoder [600, 320, 0, 490, 600]).map Prod.snd =
      some [DIR_NONE, DIR_NONE, DIR_CW, DIR_NONE, DIR_CW] ∧
    (polls sampleEncoder [600, 320, 0, 490, 600]).map Prod.snd =
      some [DIR_NONE, DIR_NONE, DIR_NONE, DIR_NONE, DIR_CW] :=
  ⟨rfl, C16_half_step_emits_at_00_and_11 sampleEncoder [600, 320, 0] [600, 320, 0, 490, 600]
    490 rfl (by decide)⟩

/-! ## C18: mirror symmetry of the full-step table -/

theorem history_eq_visits (e : OneWireRotaryEncoder) (ss : List Nat) :
    history e ss = visits e.State (ss.map (pins e)) := by
  induction ss generalizing e with
  | nil => rfl
  | cons s rest ih =>
    cases hadv : advance e.State (pins e s).1 (pins e s).2 with
    | none => simp [history, visits, process_none e s hadv, hadv]
    | some st =>
      obtain ⟨e1, hp, hst, hv, ht, _⟩ := process_some e s st hadv
      have hpins : List.map (pins e1) rest = List.map (pins e) rest := by
        apply List.map_congr_left
        intro x _
        exact pins_congr e e1 x hv ht
      simp only [history, hp, List.map_cons, visits, hadv, Option.some_bind]
      rw [ih e1, hpins, hst]

theorem advance_mirror (st : Nat) (a b : Bool) (h : Reachable st) :
    advance (mirrorState st) b a = (advance st a b).map mirrorState ∧
    Reachable (mirrorState st) ∧
    ∀ v, advance st a b = some v → mirrorState v &&& 0x30 = mirrorEvent (v &&& 0x30) := by
  have hst : st = 0 ∨ st = 1 ∨ st = 2 ∨ st = 3 ∨ st = 4 ∨ st = 5 ∨ st = 6 ∨
      st = 0x10 ∨ st = 0x20 := by
    unfold Reachable at h; omega
  rcases hst with h | h | h | h | h | h | h | h | h <;> subst h <;>
    cases a <;> cases b <;>
    refine ⟨rfl, by unfold Reachable; decide, ?_⟩ <;>
    intro v hv <;> (obtain rfl : _ = v := Option.some.inj hv) <;> rfl

theorem visits_mirror (cs : List (Bool × Bool)) (st : Nat) (h : Reachable st) :
    visits (mirrorState st) (cs.map swapPins) = (visits st cs).map (List.map mirrorState) := by
  induction cs generalizing st with
  | nil => rfl
  | cons c rest ih =>
    obtain ⟨st1, hadv, hr1⟩ := advance_reachable st c.1 c.2 h
    have hm := (advance_mirror st c.1 c.2 h).1
    rw [hadv] at hm
    simp only [List.map_cons, visits, swapPins, hm, hadv, Option.map_some', Option.some_bind,
      ih st1 hr1, Option.map_map]
    cases visits st1 rest with
    | none => rfl
    | some H => rfl

theorem advances_mirror (cs : List (Bool × Bool)) (st : Nat) (h : Reachable st) :
    advances (mirrorState st) (cs.map swapPins) =
      (advances st cs).map fun r => (mirrorState r.1, r.2.map mirrorEvent) := by
  induction cs generalizing st with
  | nil => rfl
  | cons c rest ih =>
    obtain ⟨st1, hadv, hr1⟩ := advance_reachable st c.1 c.2 h
    obtain ⟨hm, _, hev⟩ := advance_mirror st c.1 c.2 h
    rw [hadv] at hm
    simp only [List.map_cons, advances, swapPins, hm, hadv, Option.map_some', Option.some_bind,
      ih st1 hr1, Option.map_map, hev st1 hadv]
    cases advances st1 rest with
    | none => rfl
    | some r => rfl

/-- C18. Mirror symmetry of the full-step machine.  For two runs of polls from
`R_START` in which the pin states of the second are those of the first with
phase A and phase B exchanged on every poll: both runs return, the second
returns poll by poll the events of the first with `DIR_CW` and `DIR_CCW`
exchanged, and its state byte after each poll is the mirror image of that of
the first. -/
theorem C18_mirror_symmetry (e e2 : OneWireRotaryEncoder) (ss ss2 : List Nat)
    (hstart : e.State = R_START) (hstart2 : e2.State = R_START)
    (hswap : ss2.map (pins e2) = (ss.map (pins e)).map swapPins) :
    ∃ H e1 rs e3, history e ss = some H ∧ polls e ss = some (e1, rs) ∧
      history e2 ss2 = some (H.map mirrorState) ∧
      polls e2 ss2 = some (e3, rs.map mirrorEvent) := by
  have h0 : Reachable R_START := by unfold Reachable R_START; omega
  obtain ⟨H, e1, rs, hH, hps, _, _, _⟩ := history_progress ss e []
    (by rw [hstart]; exact h0)
    (by
      rw [hstart]
      refine ⟨?_, ?_, ?_, ?_, ?_, ?_⟩ <;> intro hq <;> exact absurd hq (by decide))
  obtain ⟨e3, rs2, hps2, _⟩ := polls_reachable e2 ss2 (by rw [hstart2]; exact h0)
  refine ⟨H, e1, rs, e3, hH, hps, ?_, ?_⟩
  · have hv := history_eq_visits e ss
    rw [hH, hstart] at hv
    rw [history_eq_visits, hswap, hstart2]
    have hm := visits_mirror (ss.map (pins e)) R_START h0
    rw [← hv] at hm
    exact hm
  · have ha := polls_eq_advances e ss
    rw [hps, hstart] at ha
    have ha2 := polls_eq_advances e2 ss2
    rw [hps2, hswap, hstart2] at ha2
    have hm := advances_mirror (ss.map (pins e)) R_START h0
    rw [← ha] at hm
    have hm2 : advances R_START ((ss.map (pins e)).map swapPins) =
        advances (mirrorState R_START) ((ss.map (pins e)).map swapPins) := rfl
    rw [hm2, hm] at ha2
    simp only [Option.map_some', Option.some.injEq, Prod.mk.injEq] at ha2
    rw [hps2, ha2.2]

theorem C18_mirror_symmetry_witness :
    sampleEncoder.State = R_START ∧
    [600, 490, 0, 320, 600].map (pins sampleEncoder) =
      ([600, 320, 0, 490, 600].map (pins sampleEncoder)).map swapPins ∧
    ∃ H e1 rs e3, history sampleEncoder [600, 320, 0, 490, 600] = some H ∧
      polls sampleEncoder [600, 320, 0, 490, 600] = some (e1, rs) ∧
      history sampleEncoder [600, 490, 0, 320, 600] = some (H.map mirrorState) ∧
      polls sampleEncoder [600, 490, 0, 320, 600] = some (e3, rs.map mirrorEvent) :=
  ⟨rfl, by decide,
    C18_mirror_symmetry sampleEncoder sampleEncoder [600, 320, 0, 490, 600]
      [600, 490, 0, 320, 600] rfl rfl (by decide)⟩

/-! ## C17: the machine counts rotation on bounce-free input -/

theorem netEvents_cons (x : Nat) (rs : List Nat) :
    netEvents (x :: rs) = netEvents [x] + netEvents rs := by
  simp only [netEvents, List.count_cons, List.count_nil]
  push_cast
  ring

theorem aligned_step (st : Nat) (c d : Bool × Bool) (h : Aligned st c) (hd : OneBitApart c d) :
    ∃ st1, advance st d.1 d.2 = some st1 ∧ Aligned st1 d ∧
      offset st + quarterMove c d = 4 * netEvents [st1 &&& 0x30] + offset st1 := by
  obtain ⟨a, b⟩ := d
  unfold OneBitApart at hd
  rcases h with ⟨h | h | h, hc⟩ | ⟨h, hc⟩ | ⟨h, hc⟩ | ⟨h, hc⟩ | ⟨h, hc⟩ | ⟨h, hc⟩ | ⟨h, hc⟩ <;>
    subst h <;> subst hc <;> cases a <;> cases b <;>
    first
    | (exfalso; revert hd; decide)
    | exact ⟨_, rfl, by unfold Aligned; decide, by decide⟩

/-- At pin state 11 the machine stands at the rest position. -/
theorem aligned_rest (st : Nat) (h : Aligned st (true, true)) : offset st = 0 := by
  rcases h with ⟨h | h | h, _⟩ | ⟨_, hc⟩ | ⟨_, hc⟩ | ⟨_, hc⟩ | ⟨_, hc⟩ | ⟨_, hc⟩ | ⟨_, hc⟩
  · subst h; rfl
  · subst h; rfl
  · subst h; rfl
  all_goals exact absurd hc (by decide)

/-- On bounce-free pin states, from an aligned state: the run returns, and
after every step whose pin state is 11 the position equals four times the net
number of events. -/
theorem count_run (cs : List (Bool × Bool)) (st : Nat) (c : Bool × Bool)
    (h : Aligned st c) (hchain : List.Chain OneBitApart c cs) :
    ∃ st1 rs, advances st cs = some (st1, rs) ∧
      ∀ k, cs[k]? = some (true, true) →
        offset st + positionFrom c (cs.take (k + 1)) = 4 * netEvents (rs.take (k + 1)) := by
  induction cs generalizing st c with
  | nil => exact ⟨st, [], rfl, fun k hk => by simp at hk⟩
  | cons d rest ih =>
    obtain ⟨hcd, hrest⟩ := List.chain_cons.mp hchain
    obtain ⟨st1, hadv, hal, hstep⟩ := aligned_step st c d h hcd
    obtain ⟨st2, rs, hrun, hk⟩ := ih st1 d hal hrest
    refine ⟨st2, (st1 &&& 0x30) :: rs, by simp [advances, hadv, hrun], ?_⟩
    intro k hkd
    cases k with
    | zero =>
      simp only [List.getElem?_cons_zero, Option.some.injEq] at hkd
      subst hkd
      have h0 := aligned_rest st1 hal
      simp only [Nat.zero_add, List.take_succ_cons, List.take_zero, positionFrom]
      omega
    | succ k =>
      simp only [List.getElem?_cons_succ] at hkd
      have hk1 := hk k hkd
      simp only [List.take_succ_cons, positionFrom]
      rw [netEvents_cons]
      omega

/-- C17. In the full-step table, for every sequence of polls from `R_START`
whose first pin state is 11 and in which consecutive pin states are equal or
differ in exactly one bit: the polls return, and after every poll whose pin
state is 11 the quarter-step position (+1 for each move along 11 -> 01 -> 00 ->
10 -> 11, -1 for each move along the reverse cycle) equals four times the number
of `DIR_CW` events minus the number of `DIR_CCW` events returned so far. -/
theorem C17_counts_rotation_exactly (e : OneWireRotaryEncoder) (ss : List Nat)
    (hstart : e.State = R_START)
    (hfirst : (ss.map (pins e)).head? = some (true, true))
    (hfree : List.Chain' OneBitApart (ss.map (pins e))) :
    ∃ e1 rs, polls e ss = some (e1, rs) ∧
      ∀ k, (ss.map (pins e))[k]? = some (true, true) →
        position ((ss.map (pins e)).take (k + 1)) = 4 * netEvents (rs.take (k + 1)) := by
  have h0 : Reachable e.State := by rw [hstart]; unfold Reachable R_START; omega
  obtain ⟨e1, rs, hps, _⟩ := polls_reachable e ss h0
  refine ⟨e1, rs, hps, ?_⟩
  have hlink := polls_eq_advances e ss
  rw [hps, hstart] at hlink
  revert hfirst hfree hlink
  generalize ss.map (pins e) = cs
  intro hfirst hfree hlink
  cases cs with
  | nil => simp at hfirst
  | cons c0 rest =>
    simp only [List.head?_cons, Option.some.injEq] at hfirst
    subst hfirst
    have hal : Aligned R_START (true, true) := Or.inl ⟨Or.inl rfl, rfl⟩
    obtain ⟨st2, rs2, hrun, hk⟩ := count_run rest R_START (true, true) hal hfree
    have hadv : advance R_START true true = some R_START := rfl
    simp only [advances, hadv, Option.some_bind, hrun, Option.map_some', Option.some.injEq,
      Prod.mk.injEq] at hlink
    obtain ⟨_, hrs⟩ := hlink
    intro k hkd
    cases k with
    | zero =>
      rw [hrs]
      rfl
    | succ k =>
      simp only [List.getElem?_cons_succ] at hkd
      have hk1 := hk k hkd
      rw [hrs]
      simp only [List.take_succ_cons, position]
      rw [netEvents_cons]
      have hz : netEvents [R_START &&& 0x30] = 0 := rfl
      have ho : offset R_START = 0 := rfl
      omega

/-- The pin states of the samples used to exercise the rotation count. -/
theorem count_samples_pins :
    [600, 320, 0, 490, 600, 490, 0, 490, 600].map (pins sampleEncoder) =
      [(true, true), (false, true), (false, false), (true, false), (true, true),
       (true, false), (false, false), (true, false), (true, true)] := by
  decide

theorem C17_counts_rotation_exactly_witness :
    sampleEncoder.State = R_START ∧
    ([600, 320, 0, 490, 600, 490, 0, 490, 600].map (pins sampleEncoder)).head? =
      some (true, true) ∧
    List.Chain' OneBitApart ([600, 320, 0, 490, 600, 490, 0, 490, 600].map (pins sampleEncoder)) ∧
    ∃ e1 rs, polls sampleEncoder [600, 320, 0, 490, 600, 490, 0, 490, 600] = some (e1, rs) ∧
      ∀ k, ([600, 320, 0, 490, 600, 490, 0, 490, 600].map (pins sampleEncoder))[k]? =
          some (true, true) →
        position (([600, 320, 0, 490, 600, 490, 0, 490, 600].map (pins sampleEncoder)).take
          (k + 1)) = 4 * netEvents (rs.take (k + 1)) :=
  ⟨rfl, by decide, by rw [count_samples_pins]; simp [OneBitApart],
    C17_counts_rotation_exactly sampleEncoder [600, 320, 0, 490, 600, 490, 0, 490, 600] rfl
      (by decide) (by rw [count_samples_pins]; simp [OneBitApart])⟩

end OneWire
